import Mathlib

/-!
# Verification of the CSV-to-graph transformation pipeline

A shallow embedding of the profiling scripts' pipeline
(`SC1_profiling_lists.py`, `SC2_profiling_pandas_dataframe.py`, and the
dictionary variant described by the specification): CSV reading, the three
representation builders, and the directed-graph assembler, together with
theorems about their behaviour.
-/

namespace Profiling

mutual
/-- A decoded Python literal value, as produced by `ast.literal_eval` on the
`properties` column: strings, integers, booleans, `None`, lists and
string-keyed dictionaries (the literal grammar fragment the data model uses;
numeric literals are modelled as integers). -/
inductive Value where
  | str (s : String)
  | int (n : Int)
  | bool (b : Bool)
  | none
  | list (xs : ValueItems)
  | dict (xs : ValueEntries)
deriving DecidableEq, Repr

/-- The items of a decoded Python list literal. -/
inductive ValueItems where
  | nil
  | cons (hd : Value) (tl : ValueItems)
deriving DecidableEq, Repr

/-- The ordered entries of a decoded Python dictionary literal. -/
inductive ValueEntries where
  | nil
  | cons (k : String) (v : Value) (tl : ValueEntries)
deriving DecidableEq, Repr
end

/-- A decoded Properties mapping: an ordered association list, mirroring a
Python `dict` (insertion order preserved, assignment to an existing key
updates in place). -/
abbrev Props := List (String × Value)

/-- Pack a list of values into `ValueItems`. -/
def ValueItems.ofList : List Value → ValueItems
  | [] => .nil
  | v :: vs => .cons v (ofList vs)

/-- Pack an association list into `ValueEntries`. -/
def ValueEntries.ofProps : Props → ValueEntries
  | [] => .nil
  | (k, v) :: rest => .cons k v (ofProps rest)

/-- Unpack `ValueEntries` back into an association list. -/
def ValueEntries.toProps : ValueEntries → Props
  | .nil => []
  | .cons k v rest => (k, v) :: toProps rest

/-- View a value as a dictionary's entry list, when it is one (Python code that
unpacks or item-assigns a non-mapping raises a `TypeError`). -/
def Value.asDict : Value → Option Props
  | .dict xs => some xs.toProps
  | _ => Option.none

/-- Python dictionary assignment `d[k] = v`: if the key is present its value is
replaced in place, otherwise the pair is appended at the end. -/
def dinsert {κ α : Type} [DecidableEq κ] (k : κ) (v : α) : List (κ × α) → List (κ × α)
  | [] => [(k, v)]
  | (k', v') :: rest => if k' = k then (k, v) :: rest else (k', v') :: dinsert k v rest

/-- Python dictionary lookup `d.get(k)`. -/
def dlookup {κ α : Type} [DecidableEq κ] (k : κ) : List (κ × α) → Option α
  | [] => Option.none
  | (k', v') :: rest => if k' = k then some v' else dlookup k rest

/-- Python dictionary union `{**c1, **c2}`: start from `c1` and assign every
pair of `c2` in order (right-hand side wins on key collision). -/
def dmerge {κ α : Type} [DecidableEq κ] (c1 c2 : List (κ × α)) : List (κ × α) :=
  c2.foldl (fun acc kv => dinsert kv.1 kv.2 acc) c1

/-- The keys of an association list, in order. -/
def dkeys {κ α : Type} (l : List (κ × α)) : List κ := l.map Prod.fst

/-! ## The textual-literal decoder (`ast.literal_eval`)

`ast.literal_eval` is the embedded textual-literal decode step applied to the
`properties` column.  The model below parses the literal grammar fragment the
data model uses: strings (single or double quoted, with backslash escapes),
integer literals, `True`/`False`/`None`, lists and string-keyed dictionaries,
with surrounding whitespace and trailing commas as Python allows.  A text that
is not such a literal decodes to `Option.none`, modelling the `ValueError`
that `literal_eval` raises. -/
/-- Skip ASCII whitespace. -/
def skipWs : List Char → List Char
  | c :: cs => if c = ' ' ∨ c = '\t' ∨ c = '\n' ∨ c = '\r' then skipWs cs else c :: cs
  | [] => []

/-- A backslash-escaped character inside a string literal. -/
def escChar (e : Char) : Char :=
  if e = 'n' then '\n' else if e = 't' then '\t' else e

/-- Read the body of a string literal up to the closing quote `q`,
processing backslash escapes. Fails if the literal is unterminated. -/
def parseStrBody (q : Char) : List Char → Option (List Char × List Char)
  | [] => Option.none
  | c :: cs =>
    if c = q then some ([], cs)
    else if c = '\\' then
      match cs with
      | [] => Option.none
      | e :: cs' => (parseStrBody q cs').map (fun r => (escChar e :: r.1, r.2))
    else (parseStrBody q cs).map (fun r => (c :: r.1, r.2))

/-- Turn a list of decimal digits into a natural number. -/
def digitsToNat (ds : List Char) : Nat :=
  ds.foldl (fun acc d => acc * 10 + (d.toNat - '0'.toNat)) 0

/-- Read an integer literal (optional minus sign, then at least one digit). -/
def parseIntLit (cs : List Char) : Option (Int × List Char) :=
  match cs with
  | '-' :: rest =>
    match rest.takeWhile Char.isDigit, rest.dropWhile Char.isDigit with
    | [], _ => Option.none
    | ds, rest' => some (-(digitsToNat ds : Int), rest')
  | _ =>
    match cs.takeWhile Char.isDigit, cs.dropWhile Char.isDigit with
    | [], _ => Option.none
    | ds, rest' => some ((digitsToNat ds : Int), rest')

mutual
/-- Parse one literal value, fuel-bounded. -/
def parseVal : Nat → List Char → Option (Value × List Char)
  | 0, _ => Option.none
  | fuel + 1, cs =>
    match skipWs cs with
    | [] => Option.none
    | c :: rest =>
      if c = '"' ∨ c = '\'' then
        (parseStrBody c rest).map (fun r => (Value.str (String.mk r.1), r.2))
      else if c = '[' then
        (parseItems fuel rest).map (fun r => (Value.list (ValueItems.ofList r.1), r.2))
      else if c = '\x7b' then
        (parseEntries fuel rest).map (fun r => (Value.dict (ValueEntries.ofProps r.1), r.2))
      else if List.isPrefixOf ['T', 'r', 'u', 'e'] (c :: rest) then
        some (Value.bool true, (c :: rest).drop 4)
      else if List.isPrefixOf ['F', 'a', 'l', 's', 'e'] (c :: rest) then
        some (Value.bool false, (c :: rest).drop 5)
      else if List.isPrefixOf ['N', 'o', 'n', 'e'] (c :: rest) then
        some (Value.none, (c :: rest).drop 4)
      else
        (parseIntLit (c :: rest)).map (fun r => (Value.int r.1, r.2))

/-- Parse the items of a list literal after the opening bracket. -/
def parseItems : Nat → List Char → Option (List Value × List Char)
  | 0, _ => Option.none
  | fuel + 1, cs =>
    match skipWs cs with
    | ']' :: rest => some ([], rest)
    | cs' =>
      match parseVal fuel cs' with
      | Option.none => Option.none
      | some (v, cs'') =>
        match skipWs cs'' with
        | ',' :: rest => (parseItems fuel rest).map (fun r => (v :: r.1, r.2))
        | ']' :: rest => some ([v], rest)
        | _ => Option.none

/-- Parse the entries of a dictionary literal after the opening brace
(keys are string literals, per the data model). -/
def parseEntries : Nat → List Char → Option (Props × List Char)
  | 0, _ => Option.none
  | fuel + 1, cs =>
    match skipWs cs with
    | [] => Option.none
    | c :: rest =>
      if c = '\x7d' then some ([], rest)
      else if c = '"' ∨ c = '\'' then
        match parseStrBody c rest with
        | Option.none => Option.none
        | some (k, cs') =>
          match skipWs cs' with
          | ':' :: cs'' =>
            match parseVal fuel cs'' with
            | Option.none => Option.none
            | some (v, cs3) =>
              match skipWs cs3 with
              | ',' :: rest' =>
                (parseEntries fuel rest').map (fun r => ((String.mk k, v) :: r.1, r.2))
              | '\x7d' :: rest' => some ([(String.mk k, v)], rest')
              | _ => Option.none
          | _ => Option.none
      else Option.none
end

/-- The model of `ast.literal_eval` applied to a properties cell: parse one
literal and require that nothing but whitespace remains.  `Option.none` models
the decode error (`ValueError`/`SyntaxError`) that `literal_eval` raises on
text that is not a valid literal. -/
def literal_eval (s : String) : Option Value :=
  match parseVal (2 * s.length + 2) s.toList with
  | some (v, rest) => if skipWs rest = [] then some v else Option.none
  | Option.none => Option.none

/-! ## The Dataset Reader (`load_csv_generator` and the `csv` module)

The CSV text format is modelled after Python's `csv.reader` on the inputs the
data model allows: records are the physical lines of the file (a blank line is
an empty record), fields are separated by commas, and a field opening with a
double quote extends to the matching closing quote with `""` standing for one
literal quote character (quoted fields do not span lines in this model). -/
/-- Split file content into physical lines (a trailing newline does not
produce an extra empty line), stripping a carriage return at line end. -/
def splitLines (content : String) : List (List Char) :=
  go [] content.toList
where
  /-- Accumulate the current line (reversed) while scanning. -/
  go : List Char → List Char → List (List Char)
  | acc, [] => if acc.isEmpty then [] else [acc.reverse]
  | acc, '\n' :: rest => acc.reverse :: go [] rest
  | acc, '\r' :: '\n' :: rest => acc.reverse :: go [] rest
  | acc, c :: rest => go (c :: acc) rest

/-- Scan one CSV field.  The Boolean is the in-quotes state; returns the field
text and the remainder (which starts with the separating comma, if any). -/
def csvFieldAux : Bool → List Char → List Char → (List Char × List Char)
  | _, acc, [] => (acc.reverse, [])
  | true, acc, '"' :: '"' :: rest => csvFieldAux true ('"' :: acc) rest
  | true, acc, '"' :: rest => csvFieldAux false acc rest
  | true, acc, c :: rest => csvFieldAux true (c :: acc) rest
  | false, acc, ',' :: rest => (acc.reverse, ',' :: rest)
  | false, acc, '"' :: rest => csvFieldAux true acc rest
  | false, acc, c :: rest => csvFieldAux false (c :: acc) rest

/-- Split a line into its comma-separated fields. -/
def csvFieldsAux : Nat → List Char → List String
  | 0, _ => []
  | fuel + 1, cs =>
    match csvFieldAux false [] cs with
    | (f, ',' :: rest) => String.mk f :: csvFieldsAux fuel rest
    | (f, _) => [String.mk f]

/-- Parse one physical line into a CSV record (a blank line is the empty
record, as `csv.reader` yields `[]` for it). -/
def csvRecordOfLine (line : List Char) : List String :=
  match line with
  | [] => []
  | _ => csvFieldsAux (line.length + 1) line

/-- All CSV records of a file's content, in file order. -/
def csvRecords (content : String) : List (List String) :=
  (splitLines content).map csvRecordOfLine

/-- The pipeline's error taxonomy: file-access errors, the error raised when
`next()` is called on an exhausted reader inside the generator, malformed-row
(tuple-unpacking) errors, literal-decode errors, type errors from merging a
non-mapping, and configuration (missing-column) errors. -/
inductive PipeError where
  | fileNotFound (path : String)
  | stopIterationInGen
  | malformedRow (row : List String)
  | decodeError (text : String)
  | typeError
  | configError (column : String)
deriving DecidableEq, Repr

/-- A file system: a mapping from path to file content.  Reading a path not
present models the `FileNotFoundError` of `open`. -/
abbrev FS := List (String × String)

/-- Model of `load_csv_generator(file_path, header)`: open the file (file-access error
if the path is absent), create a `csv.reader` over it, skip one record when
`header` is set, and yield the remaining records in file order as tuples.
When the file has no record at all and `header` is set, the `next(reader)`
call raises `StopIteration` inside the generator body, which Python (PEP 479)
turns into a fatal `RuntimeError`, modelled by `stopIterationInGen`. -/
def load_csv_generator (fs : FS) (file_path : String) (header : Bool := true) :
    Except PipeError (List (List String)) :=
  match dlookup file_path fs with
  | Option.none => .error (.fileNotFound file_path)
  | some content =>
    let rows := csvRecords content
    if header then
      match rows with
      | [] => .error .stopIterationInGen
      | _ :: rest => .ok rest
    else .ok rows

/-- The value the last insertion for key `k` leaves behind: lookup preferring
the last matching pair of the list. -/
def dlookupLast {κ α : Type} [DecidableEq κ] (k : κ) : List (κ × α) → Option α
  | [] => Option.none
  | (k', v) :: rest =>
    match dlookupLast k rest with
    | some r => some r
    | Option.none => if k' = k then some v else Option.none

/-! ## The list-variant Representation Builder (`SC1_profiling_lists.py`) -/
/-- One iteration of the `to_networkx_nodes_format` loop: for a raw node row
`(node_id, node_label, properties)`, decode the properties text and, when
`mapping_properties` is set, merge the label under the reserved key
`"node_label"`.  A row that does not have exactly three fields fails tuple
unpacking (`ValueError`), modelled as `malformedRow`; properties text that is
not a literal is a decode error; a literal that is not a mapping cannot be
item-assigned (it would raise a `TypeError` at the assignment, or at graph
insertion when mapping is disabled), modelled as `typeError`. -/
def node_record (row : List String) (mapping_properties : Bool) :
    Except PipeError (String × Props) :=
  match row with
  | [node_id, nlabel, properties] =>
    match literal_eval properties with
    | Option.none => .error (.decodeError properties)
    | some v =>
      match v.asDict with
      | Option.none => .error .typeError
      | some props =>
        .ok (node_id,
          if mapping_properties then dinsert "node_label" (Value.str nlabel) props else props)
  | _ => .error (.malformedRow row)

/-- Model of `to_networkx_nodes_format`: convert each raw node row in order, preserving
CSV row order; the first failing row's error propagates. -/
def to_networkx_nodes_format (nodes_iterable : List (List String))
    (mapping_properties : Bool := true) : Except PipeError (List (String × Props)) :=
  match nodes_iterable with
  | [] => .ok []
  | row :: rest =>
    match node_record row mapping_properties with
    | .error e => .error e
    | .ok r =>
      match to_networkx_nodes_format rest mapping_properties with
      | .error e => .error e
      | .ok rs => .ok (r :: rs)

/-- One iteration of the `to_networkx_edges_format` loop: for a raw edge row
`(edge_id, source_id, target_id, edge_label, properties)`, decode the
properties text and, when `mapping_properties` is set, merge the edge id and
label under the reserved keys `"edge_id"` and `"edge_label"`; yield
`(source_id, target_id, properties)`.  Error cases as for the node format
(five fields expected). -/
def edge_record (row : List String) (mapping_properties : Bool) :
    Except PipeError (String × String × Props) :=
  match row with
  | [edge_id, source_id, target_id, elabel, properties] =>
    match literal_eval properties with
    | Option.none => .error (.decodeError properties)
    | some v =>
      match v.asDict with
      | Option.none => .error .typeError
      | some props =>
        .ok (source_id, target_id,
          if mapping_properties then
            dinsert "edge_label" (Value.str elabel)
              (dinsert "edge_id" (Value.str edge_id) props)
          else props)
  | _ => .error (.malformedRow row)

/-- Model of `to_networkx_edges_format`: convert each raw edge row in order, preserving
CSV row order; the first failing row's error propagates. -/
def to_networkx_edges_format (edges_iterable : List (List String))
    (mapping_properties : Bool := true) :
    Except PipeError (List (String × String × Props)) :=
  match edges_iterable with
  | [] => .ok []
  | row :: rest =>
    match edge_record row mapping_properties with
    | .error e => .error e
    | .ok r =>
      match to_networkx_edges_format rest mapping_properties with
      | .error e => .error e
      | .ok rs => .ok (r :: rs)

/-! ## The Graph Assembler and the directed-graph collaborator

Modelled from the spec: the directed-graph structure itself (networkx
`DiGraph`) is an external collaborator, not part of the sources; §6 fixes its
bulk insertion as `add_nodes_from`/`add_edges_from`-style with last-write-wins
semantics, and §3/§4.5 fix that edges are deduplicated by `(source, target)`
with overwrite, that node insertion with a repeated identifier overwrites, and
that edge insertion auto-creates absent endpoint nodes with empty
Properties. -/
/-- Modelled from the spec: the directed-graph collaborator's state — nodes
keyed by identifier and edges keyed by `(source, target)`, each carrying a
Properties mapping, in insertion order. -/
structure Graph (ι : Type) where
  nodes : List (ι × Props)
  edges : List ((ι × ι) × Props)
deriving DecidableEq, Repr

/-- The empty directed graph (`nx.DiGraph()`). -/
def Graph.empty {ι : Type} : Graph ι := ⟨[], []⟩

/-- Modelled from the spec: insert one node; a repeated identifier overwrites
the existing node's Properties. -/
def addNode {ι : Type} [DecidableEq ι] (g : Graph ι) (i : ι) (p : Props) : Graph ι :=
  { g with nodes := dinsert i p g.nodes }

/-- Auto-create an endpoint node with empty Properties unless it is already
present. -/
def ensureNode {ι : Type} [DecidableEq ι] (g : Graph ι) (i : ι) : Graph ι :=
  if (dlookup i g.nodes).isSome then g else { g with nodes := g.nodes ++ [(i, [])] }

/-- Modelled from the spec: insert one directed edge; endpoints absent from
the node set are auto-created with empty Properties, and a repeated
`(source, target)` key overwrites the existing edge's Properties (no parallel
edge). -/
def addEdge {ι : Type} [DecidableEq ι] (g : Graph ι) (s t : ι) (p : Props) : Graph ι :=
  let g1 := ensureNode (ensureNode g s) t
  { g1 with edges := dinsert (s, t) p g1.edges }

/-- Bulk edge insertion `add_edges_from`, in iteration order. -/
def add_edges_from {ι : Type} [DecidableEq ι] (g : Graph ι)
    (es : List (ι × ι × Props)) : Graph ι :=
  es.foldl (fun g e => addEdge g e.1 e.2.1 e.2.2) g

/-- Bulk node insertion `add_nodes_from`, in iteration order. -/
def add_nodes_from {ι : Type} [DecidableEq ι] (g : Graph ι)
    (ns : List (ι × Props)) : Graph ι :=
  ns.foldl (fun g n => addNode g n.1 n.2) g

/-- Model of `networkx_graph_from_lists`: populate the given graph with all edges
first, then all nodes. -/
def networkx_graph_from_lists (nodes_iterable : List (String × Props))
    (edges_iterable : List (String × String × Props))
    (graph_type : Graph String) : Graph String :=
  add_nodes_from (add_edges_from graph_type edges_iterable) nodes_iterable

/-- The list-variant `pipeline`: materialize both raw-row lists (nodes file
first), then build the graph.  The graph assembler consumes the lazy edge
record generator in full before the node record generator, so edge conversion
errors surface before node conversion errors, as reflected by the bind
order. -/
def pipeline (fs : FS) (file_path_nodes file_path_edges : String) :
    Except PipeError (List (List String) × List (List String) × Graph String) :=
  match load_csv_generator fs file_path_nodes true with
  | .error err => .error err
  | .ok nodes_list =>
    match load_csv_generator fs file_path_edges true with
    | .error err => .error err
    | .ok edges_list =>
      match to_networkx_edges_format edges_list true with
      | .error err => .error err
      | .ok edges_records =>
        match to_networkx_nodes_format nodes_list true with
        | .error err => .error err
        | .ok nodes_records =>
          .ok (nodes_list, edges_list,
            networkx_graph_from_lists nodes_records edges_records Graph.empty)

/-! ## The dictionary-variant Representation Builder

Modelled from the spec: the dictionary variant lives in
`pipeline_functions.py`, which is imported by the template script but is not
among the sources; §4.3 specifies it as the list variant with nodes
materialized into a mapping from node identifier to Properties and edge
records grouped into an Adjacency Map (source identifier → target identifier
→ Properties), the later occurrence's Properties replacing the earlier on a
repeated key (overwrite, no merge, no error). -/
/-- An Adjacency Map: node identifier → (neighbor identifier → Properties). -/
abbrev AdjMap := List (String × List (String × Props))

/-- Modelled from the spec: record one edge in an Adjacency Map; a repeated
`(source, target)` pair overwrites the earlier Properties. -/
def adjInsert (s t : String) (p : Props) : AdjMap → AdjMap
  | [] => [(s, [(t, p)])]
  | (s', inner) :: rest =>
    if s' = s then (s', dinsert t p inner) :: rest
    else (s', inner) :: adjInsert s t p rest

/-- Flatten an Adjacency Map back to `(source, target, Properties)` triples. -/
def adjFlatten (m : AdjMap) : List (String × String × Props) :=
  m.flatMap fun grp => grp.2.map fun e => (grp.1, e.1, e.2)

/-- Modelled from the spec: `create_dictionaries` — decode the raw rows
exactly as the list variant does, then materialize the node records into a
node-id-keyed mapping and the edge records into an Adjacency Map. -/
def create_dictionaries (nodeRows edgeRows : List (List String)) :
    Except PipeError (List (String × Props) × AdjMap) :=
  match to_networkx_nodes_format nodeRows true with
  | .error err => .error err
  | .ok nrecs =>
    match to_networkx_edges_format edgeRows true with
    | .error err => .error err
    | .ok erecs =>
      .ok (nrecs.foldl (fun m n => dinsert n.1 n.2 m) [],
           erecs.foldl (fun m e => adjInsert e.1 e.2.1 e.2.2 m) [])

/-! ## The dataframe-variant Representation Builder
(`SC2_profiling_pandas_dataframe.py`)

The tabular-data library is an external collaborator; a dataframe is modelled
as a column-name header plus rows of cells.  `pd.read_csv` reads the header
from the first CSV record and the rows from the rest; its cells are modelled
as the raw text fields (the data model's Raw Rows are text — the library's
numeric dtype inference is outside the model). -/
/-- A dataframe: named columns and rows of cells. -/
structure Df where
  header : List String
  rows : List (List Value)
deriving DecidableEq, Repr

/-- Model of `from_csv_to_pandasdf` / `pd.read_csv`: first record is the header, the
remaining records are the rows, as text cells. -/
def from_csv_to_pandasdf (content : String) : Df :=
  match csvRecords content with
  | [] => ⟨[], []⟩
  | h :: rest => ⟨h, rest.map (fun r => r.map Value.str)⟩

/-- Model of `row_to_dictionary`: drop the caller's "keep intact" columns (a missing
column name raises a `KeyError`, the configuration error), and collapse the
remaining columns into one dictionary-valued `temp_dicts` column, keyed by
the remaining columns' names (`dict(zip(...))` — successive insertion). -/
def row_to_dictionary (df : Df) (columns_to_keep_intact : List String) :
    Except PipeError Df :=
  match columns_to_keep_intact.find? (fun c => !(df.header.contains c)) with
  | some c => .error (.configError c)
  | Option.none =>
    .ok ⟨(df.header.filter (fun h => columns_to_keep_intact.contains h)) ++ ["temp_dicts"],
      df.rows.map (fun row =>
        ((df.header.zip row).filter
            (fun cell => columns_to_keep_intact.contains cell.1)).map Prod.snd
          ++ [Value.dict (ValueEntries.ofProps
                (dmerge [] ((df.header.zip row).filter
                  (fun cell => !(columns_to_keep_intact.contains cell.1)))))])⟩

/-- One cell of the `.map(literal_eval)` pass of `merge_properties`: the cell
at column index `i` is decoded from its textual literal form in place.  A
non-string cell raises in `literal_eval`, modelled as `typeError`. -/
def decodeCell (i : Nat) (row : List Value) : Except PipeError (List Value) :=
  match row.get? i with
  | some (Value.str s) =>
    match literal_eval s with
    | some v => .ok (row.set i v)
    | Option.none => .error (.decodeError s)
  | _ => .error .typeError

/-- The `.map(literal_eval)` pass of `merge_properties` over all rows. -/
def decodeColumn (i : Nat) : List (List Value) → Except PipeError (List (List Value))
  | [] => .ok []
  | row :: rest =>
    match decodeCell i row with
    | .error e => .error e
    | .ok r =>
      match decodeColumn i rest with
      | .error e => .error e
      | .ok rs => .ok (r :: rs)

/-- One row of the dictionary-union pass of `merge_properties`: the cell at
column index `i` becomes `{**cell_i, **cell_j}` (right-hand side wins); a
non-mapping operand raises, modelled as `typeError`. -/
def mergeCells (i j : Nat) (row : List Value) : Except PipeError (List Value) :=
  match row.get? i, row.get? j with
  | some v1, some v2 =>
    match v1.asDict, v2.asDict with
    | some c1, some c2 =>
      .ok (row.set i (Value.dict (ValueEntries.ofProps (dmerge c1 c2))))
    | _, _ => .error .typeError
  | _, _ => .error .typeError

/-- The dictionary-union pass of `merge_properties` over all rows. -/
def mergeColumn (i j : Nat) : List (List Value) → Except PipeError (List (List Value))
  | [] => .ok []
  | row :: rest =>
    match mergeCells i j row with
    | .error e => .error e
    | .ok r =>
      match mergeColumn i j rest with
      | .error e => .error e
      | .ok rs => .ok (r :: rs)

/-- Model of `merge_properties`: decode every cell of `column_to_keep` from its textual
literal form (first pass — `.map(literal_eval)`), then replace it by the
dictionary union `{**decoded, **merge_cell}` (right-hand side wins), and drop
`column_to_merge`.  A missing column is a `KeyError`. -/
def merge_properties (df : Df) (column_to_keep column_to_merge : String) :
    Except PipeError Df :=
  match df.header.findIdx? (· = column_to_keep) with
  | Option.none => .error (.configError column_to_keep)
  | some i =>
    match decodeColumn i df.rows with
    | .error err => .error err
    | .ok decoded =>
      match df.header.findIdx? (· = column_to_merge) with
      | Option.none => .error (.configError column_to_merge)
      | some j =>
        match mergeColumn i j decoded with
        | .error err => .error err
        | .ok merged =>
          .ok ⟨df.header.eraseIdx j, merged.map (fun row => row.eraseIdx j)⟩

/-- Model of `change_column_names` / `df.rename`: rename the columns listed in the
name map, leaving the others (and names absent from the table) alone. -/
def change_column_names (df : Df) (column_names_dict : List (String × String)) : Df :=
  ⟨df.header.map (fun h => (dlookup h column_names_dict).getD h), df.rows⟩

/-- Model of `df_to_networkx_nodes`, the dataframe node builder — collapse, decode and
merge properties, rename to canonical column names. -/
def df_to_networkx_nodes (nodes_df : Df) (columns_to_keep_intact : List String)
    (column_names_dict : List (String × String)) : Except PipeError Df :=
  match row_to_dictionary nodes_df columns_to_keep_intact with
  | .error err => .error err
  | .ok df1 =>
    match merge_properties df1 "properties" "temp_dicts" with
    | .error err => .error err
    | .ok df2 => .ok (change_column_names df2 column_names_dict)

/-- Model of `df_to_networkx_edges`, the dataframe edge builder. -/
def df_to_networkx_edges (edges_df : Df) (columns_to_keep_intact : List String)
    (column_names_dict : List (String × String)) : Except PipeError Df :=
  match row_to_dictionary edges_df columns_to_keep_intact with
  | .error err => .error err
  | .ok df1 =>
    match merge_properties df1 "properties" "temp_dicts" with
    | .error err => .error err
    | .ok df2 => .ok (change_column_names df2 column_names_dict)

/-- Project a named column out of a dataframe (`df["name"]`; a missing name
is a `KeyError`). -/
def getCol (df : Df) (name : String) : Except PipeError (List Value) :=
  match df.header.findIdx? (· = name) with
  | Option.none => .error (.configError name)
  | some i => .ok (df.rows.map (fun row => (row.get? i).getD Value.none))

/-- Read `(node id, Properties)` pairs off the zipped id/properties cells; a
non-mapping properties cell would make the graph insertion raise, modelled as
`typeError`. -/
def nodePairsOf : List (Value × Value) → Except PipeError (List (Value × Props))
  | [] => .ok []
  | x :: rest =>
    match x.2.asDict with
    | some p =>
      match nodePairsOf rest with
      | .error e => .error e
      | .ok rs => .ok ((x.1, p) :: rs)
    | Option.none => .error .typeError

/-- Read `(source, target, Properties)` triples off the zipped cells. -/
def edgeTriplesOf : List (Value × Value × Value) →
    Except PipeError (List (Value × Value × Props))
  | [] => .ok []
  | x :: rest =>
    match x.2.2.asDict with
    | some p =>
      match edgeTriplesOf rest with
      | .error e => .error e
      | .ok rs => .ok ((x.1, x.2.1, p) :: rs)
    | Option.none => .error .typeError

/-- The `(node id, Properties)` pairs that `networkx_graph_from_pandas` feeds
to `add_nodes_from`: the `source` and `properties` columns zipped
(`itertuples`). -/
def pandas_node_pairs (networkx_nodes_df : Df) :
    Except PipeError (List (Value × Props)) :=
  match getCol networkx_nodes_df "source" with
  | .error err => .error err
  | .ok nids =>
    match getCol networkx_nodes_df "properties" with
    | .error err => .error err
    | .ok nprops => nodePairsOf (nids.zip nprops)

/-- The `(source, target, Properties)` triples that
`networkx_graph_from_pandas` feeds to `add_edges_from`. -/
def pandas_edge_triples (networkx_edges_df : Df) :
    Except PipeError (List (Value × Value × Props)) :=
  match getCol networkx_edges_df "source" with
  | .error err => .error err
  | .ok srcs =>
    match getCol networkx_edges_df "target" with
    | .error err => .error err
    | .ok tgts =>
      match getCol networkx_edges_df "properties" with
      | .error err => .error err
      | .ok eprops => edgeTriplesOf (srcs.zip (tgts.zip eprops))

/-- Model of `networkx_graph_from_pandas`: populate the given graph with all edges
first (`source`/`target`/`properties` columns), then all nodes
(`source`/`properties` columns). -/
def networkx_graph_from_pandas (networkx_nodes_df networkx_edges_df : Df)
    (graph_type : Graph Value) : Except PipeError (Graph Value) :=
  match pandas_edge_triples networkx_edges_df with
  | .error err => .error err
  | .ok etriples =>
    match pandas_node_pairs networkx_nodes_df with
    | .error err => .error err
    | .ok npairs => .ok (add_nodes_from (add_edges_from graph_type etriples) npairs)

/-! ## Mutable default argument (`graph_type=nx.DiGraph()`) -/
/-- Python evaluates a `def`'s default argument once, at definition time;
`graph_type=nx.DiGraph()` therefore denotes one shared graph object, which
every call omitting the argument receives and mutates in place.  This model
replays successive `networkx_graph_from_lists` calls that omit the graph
argument, listing the graph each call returns. -/
def callsOmittingGraphArg
    (calls : List (List (String × Props) × List (String × String × Props))) :
    List (Graph String) :=
  go Graph.empty calls
where
  /-- Thread the shared default graph through the calls. -/
  go : Graph String →
      List (List (String × Props) × List (String × String × Props)) →
      List (Graph String)
  | _, [] => []
  | g, (ns, es) :: rest =>
    let g' := networkx_graph_from_lists ns es g
    g' :: go g' rest

/-! ## Lemmas about the Graph Assembler -/
/-- The node identifiers appearing as an endpoint of some edge record. -/
def endpoints {ι : Type} (es : List (ι × ι × Props)) : List ι :=
  es.flatMap (fun e => [e.1, e.2.1])

/-- Key an edge-record list by its `(source, target)` pair. -/
def keyed {ι : Type} (es : List (ι × ι × Props)) : List ((ι × ι) × Props) :=
  es.map (fun e => ((e.1, e.2.1), e.2.2))

/-! ## The builder outputs as the scripts' `pipeline` functions configure them -/
/-- The `(node id, Properties)` pairs the dataframe variant produces for a
nodes CSV, with the keep-intact set and rename map hard-coded in the SC2
`pipeline` (`["UniProt ID", "properties"]`, renamed to `source`). -/
def pandas_nodes_output (content : String) :
    Except PipeError (List (Value × Props)) :=
  match df_to_networkx_nodes (from_csv_to_pandasdf content)
      ["UniProt ID", "properties"]
      [("UniProt ID", "source"), ("properties", "properties")] with
  | .error err => .error err
  | .ok df => pandas_node_pairs df

/-- The `(source, target, Properties)` triples the dataframe variant produces
for an edges CSV, with the SC2 `pipeline` configuration
(`["Source ID", "Target ID", "properties"]`, renamed to `source`/`target`). -/
def pandas_edges_output (content : String) :
    Except PipeError (List (Value × Value × Props)) :=
  match df_to_networkx_edges (from_csv_to_pandasdf content)
      ["Source ID", "Target ID", "properties"]
      [("Source ID", "source"), ("Target ID", "target"),
       ("properties", "properties")] with
  | .error err => .error err
  | .ok df => pandas_edge_triples df

/-- Lookup of an edge's Properties in an Adjacency Map. -/
def adjLookup (m : AdjMap) (s t : String) : Option Props :=
  match dlookup s m with
  | some inner => dlookup t inner
  | Option.none => Option.none

/-! ## Theorems -/

@[simp] theorem ValueEntries.toProps_ofProps (p : Props) :
    (ValueEntries.ofProps p).toProps = p := by
  induction p with
  | nil => rfl
  | cons hd tl ih => obtain ⟨k, v⟩ := hd; simp [ofProps, toProps, ih]

@[simp] theorem Value.asDict_dict (xs : ValueEntries) :
    (Value.dict xs).asDict = some xs.toProps := rfl

@[simp] theorem dinsert_nil {κ α : Type} [DecidableEq κ] (k : κ) (v : α) :
    dinsert k v ([] : List (κ × α)) = [(k, v)] := rfl

@[simp] theorem dlookup_nil {κ α : Type} [DecidableEq κ] (k : κ) :
    dlookup k ([] : List (κ × α)) = Option.none := rfl

@[simp] theorem dmerge_nil_right {κ α : Type} [DecidableEq κ] (c1 : List (κ × α)) :
    dmerge c1 [] = c1 := rfl

theorem dmerge_cons {κ α : Type} [DecidableEq κ] (c1 : List (κ × α)) (k : κ) (v : α)
    (c2 : List (κ × α)) : dmerge c1 ((k, v) :: c2) = dmerge (dinsert k v c1) c2 := rfl

@[simp] theorem dmerge_single {κ α : Type} [DecidableEq κ] (c1 : List (κ × α)) (k : κ) (v : α) :
    dmerge c1 [(k, v)] = dinsert k v c1 := rfl

@[simp] theorem dkeys_nil {κ α : Type} : dkeys ([] : List (κ × α)) = [] := rfl

@[simp] theorem dkeys_cons {κ α : Type} (k : κ) (v : α) (l : List (κ × α)) :
    dkeys ((k, v) :: l) = k :: dkeys l := rfl

theorem dlookup_dinsert {κ α : Type} [DecidableEq κ] (k : κ) (v : α) (l : List (κ × α)) :
    dlookup k (dinsert k v l) = some v := by
  induction l with
  | nil => simp [dinsert, dlookup]
  | cons hd tl ih =>
    obtain ⟨k', v'⟩ := hd
    by_cases h : k' = k
    · simp [dinsert, dlookup, h]
    · simp [dinsert, dlookup, h, ih]

theorem dlookup_dinsert_ne {κ α : Type} [DecidableEq κ] {k k' : κ} (v : α) (l : List (κ × α))
    (h : k' ≠ k) : dlookup k' (dinsert k v l) = dlookup k' l := by
  induction l with
  | nil => simp [dinsert, dlookup, Ne.symm h]
  | cons hd tl ih =>
    obtain ⟨k'', v''⟩ := hd
    by_cases h2 : k'' = k
    · subst h2
      simp [dinsert, dlookup, Ne.symm h]
    · by_cases h3 : k'' = k'
      · subst h3
        simp [dinsert, dlookup, h2, dlookup]
      · simp [dinsert, dlookup, h2, h3, ih]

theorem dkeys_dinsert_of_mem {κ α : Type} [DecidableEq κ] {k : κ} (v : α) {l : List (κ × α)}
    (h : k ∈ dkeys l) : dkeys (dinsert k v l) = dkeys l := by
  induction l with
  | nil => simp at h
  | cons hd tl ih =>
    obtain ⟨k', v'⟩ := hd
    by_cases h2 : k' = k
    · simp [dinsert, h2]
    · have hmem : k ∈ dkeys tl := by
        rcases List.mem_cons.mp (by simpa using h) with h3 | h3
        · exact absurd h3.symm h2
        · exact h3
      simp only [dinsert, if_neg h2, dkeys_cons, ih hmem]

theorem dinsert_of_not_mem {κ α : Type} [DecidableEq κ] {k : κ} (v : α) {l : List (κ × α)}
    (h : k ∉ dkeys l) : dinsert k v l = l ++ [(k, v)] := by
  induction l with
  | nil => simp [dinsert]
  | cons hd tl ih =>
    obtain ⟨k', v'⟩ := hd
    have h1 : ¬k' = k := by
      intro hh
      exact h (by simp [hh])
    have h2 : k ∉ dkeys tl := by
      intro hh
      exact h (by simp [hh])
    simp [dinsert, h1, ih h2]

example : literal_eval "\x7b\x7d" = some (Value.dict .nil) := by decide

example : literal_eval "\x7b\"mass\": 10\x7d" =
    some (Value.dict (.cons "mass" (Value.int 10) .nil)) := by decide

example : literal_eval "not a literal" = Option.none := by decide

example : csvRecords "id,label,properties\n1,protein,\"\x7b\"\"mass\"\": 10\x7d\"" =
    [["id", "label", "properties"], ["1", "protein", "\x7b\"mass\": 10\x7d"]] := by decide

@[simp] theorem dlookupLast_nil {κ α : Type} [DecidableEq κ] (k : κ) :
    dlookupLast k ([] : List (κ × α)) = Option.none := rfl

theorem mem_dkeys_dinsert_of_mem {κ α : Type} [DecidableEq κ] {k' k : κ} (v : α)
    {l : List (κ × α)} (h : k' ∈ dkeys l) : k' ∈ dkeys (dinsert k v l) := by
  induction l with
  | nil => simp at h
  | cons hd tl ih =>
    obtain ⟨k'', v''⟩ := hd
    by_cases h2 : k'' = k
    · subst h2
      rcases List.mem_cons.mp (by simpa using h) with h3 | h3
      · simp [dinsert, h3]
      · simp [dinsert, h3]
    · rcases List.mem_cons.mp (by simpa using h) with h3 | h3
      · simp [dinsert, h2, h3]
      · simp [dinsert, h2, ih h3]

theorem mem_dkeys_dinsert_self {κ α : Type} [DecidableEq κ] (k : κ) (v : α)
    (l : List (κ × α)) : k ∈ dkeys (dinsert k v l) := by
  induction l with
  | nil => simp [dinsert]
  | cons hd tl ih =>
    obtain ⟨k', v'⟩ := hd
    by_cases h : k' = k
    · simp [dinsert, h]
    · simp [dinsert, h, ih]

theorem nodup_dkeys_dinsert {κ α : Type} [DecidableEq κ] (k : κ) (v : α)
    {l : List (κ × α)} (h : (dkeys l).Nodup) : (dkeys (dinsert k v l)).Nodup := by
  by_cases hk : k ∈ dkeys l
  · rw [dkeys_dinsert_of_mem v hk]
    exact h
  · rw [dinsert_of_not_mem v hk]
    simp only [dkeys, List.map_append, List.map_cons, List.map_nil]
    exact List.Nodup.append h (List.nodup_singleton k) (by
      intro a ha hb
      simp at hb
      exact hk (hb ▸ ha))

theorem dlookup_eq_none_iff {κ α : Type} [DecidableEq κ] (k : κ) (l : List (κ × α)) :
    dlookup k l = Option.none ↔ k ∉ dkeys l := by
  induction l with
  | nil => simp
  | cons hd tl ih =>
    obtain ⟨k', v'⟩ := hd
    by_cases h : k' = k
    · simp [dlookup, h]
    · simp [dlookup, h, ih, Ne.symm h]

theorem dlookupLast_eq_none_iff {κ α : Type} [DecidableEq κ] (k : κ) (l : List (κ × α)) :
    dlookupLast k l = Option.none ↔ k ∉ dkeys l := by
  induction l with
  | nil => simp
  | cons hd tl ih =>
    obtain ⟨k', v'⟩ := hd
    by_cases h : k' = k
    · simp only [dlookupLast, dkeys_cons, List.mem_cons]
      constructor
      · intro hh
        rcases h2 : dlookupLast k tl with _ | r
        · simp [h2, h] at hh
        · simp [h2] at hh
      · intro hh
        exact absurd (Or.inl h.symm) hh
    · simp only [dlookupLast, dkeys_cons, List.mem_cons]
      constructor
      · intro hh h3
        rcases h3 with h3 | h3
        · exact h h3.symm
        · rcases h2 : dlookupLast k tl with _ | r
          · exact (ih.mp h2) h3
          · simp [h2] at hh
      · intro hh
        have h3 : dlookupLast k tl = Option.none := ih.mpr (fun hm => hh (Or.inr hm))
        simp [h3, h]

theorem dlookupLast_append {κ α : Type} [DecidableEq κ] (k : κ) (l1 l2 : List (κ × α)) :
    dlookupLast k (l1 ++ l2) =
      match dlookupLast k l2 with
      | some v => some v
      | Option.none => dlookupLast k l1 := by
  induction l1 with
  | nil => rcases h : dlookupLast k l2 with _ | v <;> simp [h]
  | cons hd tl ih =>
    obtain ⟨k', v'⟩ := hd
    rcases h : dlookupLast k l2 with _ | v <;>
      simp only [List.cons_append, dlookupLast, List.append_eq, ih, h]

/-- Folding Python dictionary assignments over a pair list: the result of a
lookup is the last assignment for the key, falling back to the initial
dictionary. -/
theorem dlookup_foldl_dinsert {κ α : Type} [DecidableEq κ] (k : κ) (ps : List (κ × α))
    (l0 : List (κ × α)) :
    dlookup k (ps.foldl (fun l p => dinsert p.1 p.2 l) l0) =
      match dlookupLast k ps with
      | some v => some v
      | Option.none => dlookup k l0 := by
  induction ps generalizing l0 with
  | nil => simp
  | cons hd tl ih =>
    obtain ⟨k', v'⟩ := hd
    simp only [List.foldl_cons, ih, dlookupLast]
    rcases h : dlookupLast k tl with _ | r
    · by_cases h2 : k' = k
      · subst h2
        simp [dlookup_dinsert]
      · simp [h2, dlookup_dinsert_ne _ _ (Ne.symm h2)]
    · rfl

theorem mem_dkeys_foldl_dinsert_of_mem {κ α : Type} [DecidableEq κ] {k : κ}
    (ps : List (κ × α)) {l0 : List (κ × α)} (h : k ∈ dkeys l0) :
    k ∈ dkeys (ps.foldl (fun l p => dinsert p.1 p.2 l) l0) := by
  induction ps generalizing l0 with
  | nil => simpa
  | cons hd tl ih => exact ih (mem_dkeys_dinsert_of_mem _ h)

theorem mem_dkeys_foldl_dinsert_of_mem_ps {κ α : Type} [DecidableEq κ] {k : κ}
    {ps : List (κ × α)} (l0 : List (κ × α)) (h : k ∈ dkeys ps) :
    k ∈ dkeys (ps.foldl (fun l p => dinsert p.1 p.2 l) l0) := by
  induction ps generalizing l0 with
  | nil => simp at h
  | cons hd tl ih =>
    obtain ⟨k', v'⟩ := hd
    rcases List.mem_cons.mp (by simpa using h) with h2 | h2
    · subst h2
      exact mem_dkeys_foldl_dinsert_of_mem tl (mem_dkeys_dinsert_self _ _ _)
    · exact ih _ h2

theorem dkeys_foldl_dinsert_of_subset {κ α : Type} [DecidableEq κ] {ps : List (κ × α)}
    {l0 : List (κ × α)} (h : ∀ k ∈ dkeys ps, k ∈ dkeys l0) :
    dkeys (ps.foldl (fun l p => dinsert p.1 p.2 l) l0) = dkeys l0 := by
  induction ps generalizing l0 with
  | nil => simp
  | cons hd tl ih =>
    obtain ⟨k', v'⟩ := hd
    have h1 : k' ∈ dkeys l0 := h k' (by simp)
    simp only [List.foldl_cons]
    rw [ih (fun k hk => mem_dkeys_dinsert_of_mem _ (h k (by simp [hk]))),
      dkeys_dinsert_of_mem _ h1]

theorem nodup_dkeys_foldl_dinsert {κ α : Type} [DecidableEq κ] (ps : List (κ × α))
    {l0 : List (κ × α)} (h : (dkeys l0).Nodup) :
    (dkeys (ps.foldl (fun l p => dinsert p.1 p.2 l) l0)).Nodup := by
  induction ps generalizing l0 with
  | nil => simpa
  | cons hd tl ih => exact ih (nodup_dkeys_dinsert _ _ h)

/-- Association lists with the same duplicate-free key sequence and the same
lookups are equal. -/
theorem assoc_ext {κ α : Type} [DecidableEq κ] {l1 l2 : List (κ × α)}
    (hnd : (dkeys l1).Nodup) (hk : dkeys l1 = dkeys l2)
    (hl : ∀ k, dlookup k l1 = dlookup k l2) : l1 = l2 := by
  induction l1 generalizing l2 with
  | nil =>
    cases l2 with
    | nil => rfl
    | cons hd tl => simp [dkeys] at hk
  | cons hd tl ih =>
    obtain ⟨k, v⟩ := hd
    cases l2 with
    | nil => simp [dkeys] at hk
    | cons hd2 tl2 =>
      obtain ⟨k2, v2⟩ := hd2
      simp only [dkeys_cons, List.cons.injEq] at hk
      obtain ⟨hk1, hk2⟩ := hk
      subst hk1
      have hv : v = v2 := by
        have := hl k
        simp [dlookup] at this
        exact this
      subst hv
      have hnd' : (dkeys tl).Nodup := hnd.of_cons
      have hknot : k ∉ dkeys tl := by
        simp only [dkeys_cons, List.nodup_cons] at hnd
        exact hnd.1
      have hl' : ∀ k', dlookup k' tl = dlookup k' tl2 := by
        intro k'
        by_cases h : k' = k
        · subst h
          rw [(dlookup_eq_none_iff _ _).mpr hknot,
            (dlookup_eq_none_iff _ _).mpr (hk2 ▸ hknot)]
        · have := hl k'
          simp only [dlookup, if_neg (fun hh : k = k' => h hh.symm)] at this
          exact this
      rw [ih hnd' hk2 hl']

/-- A key occurs exactly once among the pairs of an association list with
duplicate-free keys that contains it. -/
theorem filter_key_length_one {κ α : Type} [DecidableEq κ] {k : κ} {l : List (κ × α)}
    (hnd : (dkeys l).Nodup) (hmem : k ∈ dkeys l) :
    (l.filter (fun e => e.1 = k)).length = 1 := by
  induction l with
  | nil => simp at hmem
  | cons hd tl ih =>
    obtain ⟨k', v'⟩ := hd
    simp only [dkeys_cons, List.nodup_cons] at hnd
    by_cases h : k' = k
    · subst h
      have : tl.filter (fun e => e.1 = k') = [] := by
        rw [List.filter_eq_nil_iff]
        intro e he
        simp only [decide_eq_true_eq]
        intro hh
        exact hnd.1 (hh ▸ List.mem_map_of_mem Prod.fst he)
      simp [List.filter_cons, this]
    · rcases List.mem_cons.mp (by simpa using hmem) with h2 | h2
      · exact absurd h2.symm h
      · simp [List.filter_cons, h, ih hnd.2 h2]

@[simp] theorem endpoints_nil {ι : Type} : endpoints ([] : List (ι × ι × Props)) = [] := rfl

@[simp] theorem endpoints_cons {ι : Type} (e : ι × ι × Props) (es : List (ι × ι × Props)) :
    endpoints (e :: es) = e.1 :: e.2.1 :: endpoints es := rfl

@[simp] theorem keyed_nil {ι : Type} : keyed ([] : List (ι × ι × Props)) = [] := rfl

@[simp] theorem keyed_cons {ι : Type} (e : ι × ι × Props) (es : List (ι × ι × Props)) :
    keyed (e :: es) = ((e.1, e.2.1), e.2.2) :: keyed es := rfl

theorem Graph.ext {ι : Type} {g g' : Graph ι} (hn : g.nodes = g'.nodes)
    (he : g.edges = g'.edges) : g = g' := by
  cases g; cases g'; cases hn; cases he; rfl

theorem dlookup_isSome_of_mem {κ α : Type} [DecidableEq κ] {k : κ} {l : List (κ × α)}
    (h : k ∈ dkeys l) : (dlookup k l).isSome := by
  rcases h2 : dlookup k l with _ | v
  · exact absurd ((dlookup_eq_none_iff k l).mp h2) (by simpa using h)
  · rfl

theorem mem_dkeys_of_dlookup_eq_some {κ α : Type} [DecidableEq κ] {k : κ} {v : α}
    {l : List (κ × α)} (h : dlookup k l = some v) : k ∈ dkeys l := by
  by_contra hmem
  rw [(dlookup_eq_none_iff k l).mpr hmem] at h
  exact Option.noConfusion h

@[simp] theorem edges_addNode {ι : Type} [DecidableEq ι] (g : Graph ι) (i : ι) (p : Props) :
    (addNode g i p).edges = g.edges := rfl

@[simp] theorem nodes_addNode {ι : Type} [DecidableEq ι] (g : Graph ι) (i : ι) (p : Props) :
    (addNode g i p).nodes = dinsert i p g.nodes := rfl

@[simp] theorem edges_ensureNode {ι : Type} [DecidableEq ι] (g : Graph ι) (i : ι) :
    (ensureNode g i).edges = g.edges := by
  unfold ensureNode
  split <;> rfl

@[simp] theorem edges_addEdge {ι : Type} [DecidableEq ι] (g : Graph ι) (s t : ι) (p : Props) :
    (addEdge g s t p).edges = dinsert (s, t) p g.edges := by
  simp [addEdge]

theorem dlookup_append {κ α : Type} [DecidableEq κ] (k : κ) (l1 l2 : List (κ × α)) :
    dlookup k (l1 ++ l2) =
      match dlookup k l1 with
      | some v => some v
      | Option.none => dlookup k l2 := by
  induction l1 with
  | nil => simp
  | cons hd tl ih =>
    obtain ⟨k', v'⟩ := hd
    by_cases h : k' = k <;> simp [dlookup, h, ih]

theorem dlookup_nodes_ensureNode {ι : Type} [DecidableEq ι] (g : Graph ι) (i j : ι) :
    dlookup i (ensureNode g j).nodes =
      match dlookup i g.nodes with
      | some q => some q
      | Option.none => if j = i then some ([] : Props) else Option.none := by
  unfold ensureNode
  rcases h : dlookup j g.nodes with _ | q
  · simp only [h, Option.isSome_none, Bool.false_eq_true, if_false]
    rw [dlookup_append]
    rcases h2 : dlookup i g.nodes with _ | q2 <;> simp [dlookup]
  · simp only [h, Option.isSome_some, if_true]
    rcases h2 : dlookup i g.nodes with _ | q2
    · by_cases h3 : j = i
      · subst h3; rw [h2] at h; exact Option.noConfusion h
      · simp [h2, h3]
    · simp [h2]

theorem dlookup_nodes_addEdge {ι : Type} [DecidableEq ι] (g : Graph ι) (i s t : ι)
    (p : Props) :
    dlookup i (addEdge g s t p).nodes =
      match dlookup i g.nodes with
      | some q => some q
      | Option.none => if s = i ∨ t = i then some ([] : Props) else Option.none := by
  show dlookup i (ensureNode (ensureNode g s) t).nodes = _
  rw [dlookup_nodes_ensureNode, dlookup_nodes_ensureNode]
  rcases h : dlookup i g.nodes with _ | q
  · by_cases hs : s = i
    · simp [hs]
    · by_cases ht : t = i <;> simp [hs, ht]
  · rfl

theorem edges_add_nodes_from {ι : Type} [DecidableEq ι] (g : Graph ι)
    (ns : List (ι × Props)) : (add_nodes_from g ns).edges = g.edges := by
  induction ns generalizing g with
  | nil => rfl
  | cons hd tl ih => simpa [add_nodes_from] using ih (addNode g hd.1 hd.2)

theorem nodes_add_nodes_from {ι : Type} [DecidableEq ι] (g : Graph ι)
    (ns : List (ι × Props)) :
    (add_nodes_from g ns).nodes = ns.foldl (fun l n => dinsert n.1 n.2 l) g.nodes := by
  induction ns generalizing g with
  | nil => rfl
  | cons hd tl ih => simpa [add_nodes_from] using ih (addNode g hd.1 hd.2)

theorem edges_add_edges_from {ι : Type} [DecidableEq ι] (g : Graph ι)
    (es : List (ι × ι × Props)) :
    (add_edges_from g es).edges =
      (keyed es).foldl (fun l p => dinsert p.1 p.2 l) g.edges := by
  induction es generalizing g with
  | nil => rfl
  | cons hd tl ih =>
    simpa [add_edges_from, keyed] using ih (addEdge g hd.1 hd.2.1 hd.2.2)

theorem dlookup_nodes_add_edges_from {ι : Type} [DecidableEq ι] (g : Graph ι)
    (es : List (ι × ι × Props)) (i : ι) :
    dlookup i (add_edges_from g es).nodes =
      match dlookup i g.nodes with
      | some q => some q
      | Option.none => if i ∈ endpoints es then some ([] : Props) else Option.none := by
  induction es generalizing g with
  | nil =>
    rcases h : dlookup i g.nodes with _ | q <;> simp [add_edges_from, h]
  | cons hd tl ih =>
    have step : add_edges_from g (hd :: tl) = add_edges_from (addEdge g hd.1 hd.2.1 hd.2.2) tl := rfl
    rw [step, ih, dlookup_nodes_addEdge]
    rcases h : dlookup i g.nodes with _ | q
    · by_cases hs : hd.1 = i ∨ hd.2.1 = i
      · simp [hs, List.mem_cons, hs.imp Eq.symm (fun hh => Or.inl hh.symm)]
      · push_neg at hs
        by_cases hm : i ∈ endpoints tl <;>
          simp [hm, hs.1, hs.2, Ne.symm hs.1, Ne.symm hs.2]
    · rfl

theorem mem_dkeys_nodes_ensureNode {ι : Type} [DecidableEq ι] {g : Graph ι} {i : ι}
    (j : ι) (h : i ∈ dkeys g.nodes) : i ∈ dkeys (ensureNode g j).nodes := by
  unfold ensureNode
  split
  · exact h
  · simp only [dkeys, List.map_append]
    exact List.mem_append_left _ h

theorem mem_dkeys_nodes_ensureNode_self {ι : Type} [DecidableEq ι] (g : Graph ι) (i : ι) :
    i ∈ dkeys (ensureNode g i).nodes := by
  unfold ensureNode
  rcases h : dlookup i g.nodes with _ | q
  · simp [dkeys]
  · simpa using mem_dkeys_of_dlookup_eq_some h

theorem mem_dkeys_nodes_addEdge {ι : Type} [DecidableEq ι] {g : Graph ι} {i : ι}
    (s t : ι) (p : Props) (h : i ∈ dkeys g.nodes) :
    i ∈ dkeys (addEdge g s t p).nodes :=
  mem_dkeys_nodes_ensureNode t (mem_dkeys_nodes_ensureNode s h)

theorem mem_dkeys_nodes_add_edges_from {ι : Type} [DecidableEq ι] {g : Graph ι} {i : ι}
    (es : List (ι × ι × Props)) (h : i ∈ dkeys g.nodes) :
    i ∈ dkeys (add_edges_from g es).nodes := by
  induction es generalizing g with
  | nil => exact h
  | cons hd tl ih => exact ih (mem_dkeys_nodes_addEdge _ _ _ h)

theorem endpoints_mem_nodes {ι : Type} [DecidableEq ι] {i : ι} (g : Graph ι)
    {es : List (ι × ι × Props)} (h : i ∈ endpoints es) :
    i ∈ dkeys (add_edges_from g es).nodes := by
  induction es generalizing g with
  | nil => simp at h
  | cons hd tl ih =>
    have step : add_edges_from g (hd :: tl) =
        add_edges_from (addEdge g hd.1 hd.2.1 hd.2.2) tl := rfl
    rw [step]
    have h' : i = hd.1 ∨ i = hd.2.1 ∨ i ∈ endpoints tl := by simpa using h
    rcases h' with h2 | h2 | h2
    · rw [h2]
      exact mem_dkeys_nodes_add_edges_from tl
        (mem_dkeys_nodes_ensureNode _ (mem_dkeys_nodes_ensureNode_self g _))
    · rw [h2]
      exact mem_dkeys_nodes_add_edges_from tl (mem_dkeys_nodes_ensureNode_self _ _)
    · exact ih _ h2

theorem ensureNode_of_mem {ι : Type} [DecidableEq ι] {g : Graph ι} {i : ι}
    (h : i ∈ dkeys g.nodes) : ensureNode g i = g := by
  unfold ensureNode
  simp [dlookup_isSome_of_mem h]

theorem nodes_add_edges_from_of_subset {ι : Type} [DecidableEq ι] {g : Graph ι}
    {es : List (ι × ι × Props)} (h : ∀ i ∈ endpoints es, i ∈ dkeys g.nodes) :
    (add_edges_from g es).nodes = g.nodes := by
  induction es generalizing g with
  | nil => rfl
  | cons hd tl ih =>
    have hs : hd.1 ∈ dkeys g.nodes := h hd.1 (by simp)
    have ht : hd.2.1 ∈ dkeys g.nodes := h hd.2.1 (by simp)
    have hedge : (addEdge g hd.1 hd.2.1 hd.2.2).nodes = g.nodes := by
      show (ensureNode (ensureNode g hd.1) hd.2.1).nodes = g.nodes
      rw [ensureNode_of_mem hs, ensureNode_of_mem ht]
    have step : add_edges_from g (hd :: tl) = add_edges_from (addEdge g hd.1 hd.2.1 hd.2.2) tl := rfl
    rw [step, ih (fun i hi => hedge ▸ h i (by simp [hi]))]
    exact hedge

theorem nodup_nodes_ensureNode {ι : Type} [DecidableEq ι] {g : Graph ι} (i : ι)
    (h : (dkeys g.nodes).Nodup) : (dkeys (ensureNode g i).nodes).Nodup := by
  unfold ensureNode
  rcases h2 : dlookup i g.nodes with _ | q
  · simp only [h2, Option.isSome_none, Bool.false_eq_true, if_false]
    simp only [dkeys, List.map_append, List.map_cons, List.map_nil]
    exact List.Nodup.append h (List.nodup_singleton i) (by
      intro a ha hb
      simp at hb
      rw [hb] at ha
      exact absurd ((dlookup_eq_none_iff i g.nodes).mp h2) (by simpa [dkeys] using ha))
  · simpa [h2]

theorem nodup_nodes_add_edges_from {ι : Type} [DecidableEq ι] {g : Graph ι}
    (es : List (ι × ι × Props)) (h : (dkeys g.nodes).Nodup) :
    (dkeys (add_edges_from g es).nodes).Nodup := by
  induction es generalizing g with
  | nil => exact h
  | cons hd tl ih =>
    exact ih (nodup_nodes_ensureNode _ (nodup_nodes_ensureNode _ h))

/-- Replaying the same sequence of dictionary assignments over its own result
changes nothing (starting from a duplicate-free dictionary). -/
theorem foldl_dinsert_replay {κ α : Type} [DecidableEq κ] (ps : List (κ × α))
    {l0 : List (κ × α)} (h : (dkeys l0).Nodup) :
    ps.foldl (fun l p => dinsert p.1 p.2 l) (ps.foldl (fun l p => dinsert p.1 p.2 l) l0) =
      ps.foldl (fun l p => dinsert p.1 p.2 l) l0 := by
  apply assoc_ext (nodup_dkeys_foldl_dinsert _ (nodup_dkeys_foldl_dinsert _ h))
  · exact dkeys_foldl_dinsert_of_subset
      (fun k hk => mem_dkeys_foldl_dinsert_of_mem_ps _ hk)
  · intro k
    rw [dlookup_foldl_dinsert, dlookup_foldl_dinsert]
    rcases h2 : dlookupLast k ps with _ | v <;> simp [h2]

/-! ## Inversion lemmas for the row-wise builders -/
theorem to_networkx_nodes_format_cons_ok {row : List String} {rows : List (List String)}
    {out : List (String × Props)} {flag : Bool} :
    to_networkx_nodes_format (row :: rows) flag = .ok out ↔
      ∃ rec rest, node_record row flag = .ok rec ∧
        to_networkx_nodes_format rows flag = .ok rest ∧ out = rec :: rest := by
  constructor
  · intro h
    rcases h1 : node_record row flag with e | rec
    · rw [to_networkx_nodes_format, h1] at h
      exact Except.noConfusion h
    · rcases h2 : to_networkx_nodes_format rows flag with e | rest
      · rw [to_networkx_nodes_format, h1, h2] at h
        exact Except.noConfusion h
      · rw [to_networkx_nodes_format, h1, h2] at h
        exact ⟨rec, rest, rfl, rfl, (Except.ok.inj h).symm⟩
  · rintro ⟨rec, rest, h1, h2, rfl⟩
    rw [to_networkx_nodes_format, h1, h2]

theorem to_networkx_edges_format_cons_ok {row : List String} {rows : List (List String)}
    {out : List (String × String × Props)} {flag : Bool} :
    to_networkx_edges_format (row :: rows) flag = .ok out ↔
      ∃ rec rest, edge_record row flag = .ok rec ∧
        to_networkx_edges_format rows flag = .ok rest ∧ out = rec :: rest := by
  constructor
  · intro h
    rcases h1 : edge_record row flag with e | rec
    · rw [to_networkx_edges_format, h1] at h
      exact Except.noConfusion h
    · rcases h2 : to_networkx_edges_format rows flag with e | rest
      · rw [to_networkx_edges_format, h1, h2] at h
        exact Except.noConfusion h
      · rw [to_networkx_edges_format, h1, h2] at h
        exact ⟨rec, rest, rfl, rfl, (Except.ok.inj h).symm⟩
  · rintro ⟨rec, rest, h1, h2, rfl⟩
    rw [to_networkx_edges_format, h1, h2]

/-- A successful edge-record conversion pins the row's shape: it is the
five-field row whose source and target fields are the record's key. -/
theorem edge_record_ok_shape {row : List String} {rec : String × String × Props}
    {flag : Bool} (h : edge_record row flag = .ok rec) :
    row.get? 1 = some rec.1 ∧ row.get? 2 = some rec.2.1 := by
  match row with
  | [e, s, t, l, p] =>
    rcases h1 : literal_eval p with _ | v
    · simp [edge_record, h1] at h
    · rcases h2 : v.asDict with _ | props
      · simp [edge_record, h1, h2] at h
      · simp only [edge_record, h1, h2, Except.ok.injEq] at h
        rw [← h]
        exact ⟨rfl, rfl⟩
  | [] => exact Except.noConfusion h
  | [a] => exact Except.noConfusion h
  | [a, b] => exact Except.noConfusion h
  | [a, b, c] => exact Except.noConfusion h
  | [a, b, c, d] => exact Except.noConfusion h
  | a :: b :: c :: d :: e :: f :: rest => exact Except.noConfusion h

/-! ## The claims -/
/-- C4: for the nodes CSV `id,label,properties` / `1,protein,"{"mass": 10}"`
and the edges CSV `id,source,target,label,properties` /
`e1,1,2,interacts,"{}"`, the list-variant pipeline produces a graph with
exactly two nodes — `1` with Properties `mass ↦ 10, node_label ↦ "protein"`
and `2` with empty Properties — and exactly one edge `1 → 2` with Properties
`edge_id ↦ "e1", edge_label ↦ "interacts"`. -/
theorem C4_single_row_scenario :
    (pipeline
        [("nodes.csv", "id,label,properties\n1,protein,\"\x7b\"\"mass\"\": 10\x7d\""),
         ("edges.csv", "id,source,target,label,properties\ne1,1,2,interacts,\"\x7b\x7d\"")]
        "nodes.csv" "edges.csv").map (fun out => out.2.2) =
      .ok ⟨[("1", [("mass", Value.int 10), ("node_label", Value.str "protein")]),
            ("2", [])],
           [(("1", "2"),
             [("edge_id", Value.str "e1"), ("edge_label", Value.str "interacts")])]⟩ := by
  rfl

/-- C8: assembling the directed graph a second time from the same normalized
node/edge representation (re-inserting every edge and node record into the
already-assembled graph) leaves the graph identical — re-insertion under the
overwrite semantics is a no-op. -/
theorem C8_rebuild_idempotent (ns : List (String × Props))
    (es : List (String × String × Props)) :
    networkx_graph_from_lists ns es (networkx_graph_from_lists ns es Graph.empty) =
      networkx_graph_from_lists ns es Graph.empty := by
  simp only [networkx_graph_from_lists]
  have hnodupN : (dkeys (add_edges_from Graph.empty es).nodes).Nodup := by
    apply nodup_nodes_add_edges_from
    simp [Graph.empty, dkeys]
  have hmem : ∀ i ∈ endpoints es,
      i ∈ dkeys (add_nodes_from (add_edges_from Graph.empty es) ns).nodes := by
    intro i hi
    rw [nodes_add_nodes_from]
    exact mem_dkeys_foldl_dinsert_of_mem ns (endpoints_mem_nodes _ hi)
  apply Graph.ext
  · simp only [nodes_add_nodes_from, nodes_add_edges_from_of_subset hmem]
    exact foldl_dinsert_replay ns hnodupN
  · simp only [edges_add_nodes_from, edges_add_edges_from]
    exact foldl_dinsert_replay (keyed es) (by simp [Graph.empty, dkeys])

/-- C2: the graph assembler inserts all edges before all nodes; consequently a
node id appearing as an edge endpoint but absent from the node dataset ends
up in the graph with empty Properties, while a node id present in the node
dataset ends up with exactly the node dataset's (last) record's Properties —
the auto-created empty properties never survive for ids in the node
dataset. -/
theorem C2_edge_before_node_ordering (nodes : List (String × Props))
    (edges : List (String × String × Props)) :
    networkx_graph_from_lists nodes edges Graph.empty =
        add_nodes_from (add_edges_from Graph.empty edges) nodes
    ∧ (∀ i, i ∉ dkeys nodes → i ∈ endpoints edges →
        dlookup i (networkx_graph_from_lists nodes edges Graph.empty).nodes =
          some ([] : Props))
    ∧ (∀ i, i ∈ dkeys nodes →
        dlookup i (networkx_graph_from_lists nodes edges Graph.empty).nodes =
          dlookupLast i nodes) := by
  refine ⟨rfl, ?_, ?_⟩
  · intro i hnot hep
    show dlookup i (add_nodes_from (add_edges_from Graph.empty edges) nodes).nodes = _
    rw [nodes_add_nodes_from, dlookup_foldl_dinsert,
      (dlookupLast_eq_none_iff _ _).mpr hnot, dlookup_nodes_add_edges_from]
    simp [Graph.empty, hep]
  · intro i hmem
    show dlookup i (add_nodes_from (add_edges_from Graph.empty edges) nodes).nodes = _
    rw [nodes_add_nodes_from, dlookup_foldl_dinsert]
    rcases h : dlookupLast i nodes with _ | v
    · exact absurd hmem (by simpa using (dlookupLast_eq_none_iff _ _).mp h)
    · rfl

/-- C2 witness: with node dataset `[("1", {a: 1})]` and edge dataset
`[1 → 2]`, node `2` (edge-only) carries empty Properties and node `1` carries
its authored Properties. -/
theorem C2_edge_before_node_ordering_witness :
    dlookup "2" (networkx_graph_from_lists [("1", [("a", Value.int 1)])]
        [("1", "2", [])] Graph.empty).nodes = some ([] : Props)
    ∧ dlookup "1" (networkx_graph_from_lists [("1", [("a", Value.int 1)])]
        [("1", "2", [])] Graph.empty).nodes = some [("a", Value.int 1)] := by
  refine ⟨(C2_edge_before_node_ordering [("1", [("a", Value.int 1)])]
      [("1", "2", [])]).2.1 "2" (by decide) (by decide), ?_⟩
  exact ((C2_edge_before_node_ordering [("1", [("a", Value.int 1)])]
      [("1", "2", [])]).2.2 "1" (by decide)).trans (by decide)

/-- C10: `graph_type=nx.DiGraph()` is evaluated once at definition time, so
two successive calls omitting the graph argument share one graph: the second
call's result is the first call's graph extended in place, and still contains
every node and edge the first call inserted. -/
theorem C10_shared_default_graph
    (ns₁ : List (String × Props)) (es₁ : List (String × String × Props))
    (ns₂ : List (String × Props)) (es₂ : List (String × String × Props)) :
    callsOmittingGraphArg [(ns₁, es₁), (ns₂, es₂)] =
      [networkx_graph_from_lists ns₁ es₁ Graph.empty,
       networkx_graph_from_lists ns₂ es₂ (networkx_graph_from_lists ns₁ es₁ Graph.empty)]
    ∧ (∀ i ∈ dkeys (networkx_graph_from_lists ns₁ es₁ Graph.empty).nodes,
        i ∈ dkeys (networkx_graph_from_lists ns₂ es₂
          (networkx_graph_from_lists ns₁ es₁ Graph.empty)).nodes)
    ∧ (∀ k ∈ dkeys (networkx_graph_from_lists ns₁ es₁ Graph.empty).edges,
        k ∈ dkeys (networkx_graph_from_lists ns₂ es₂
          (networkx_graph_from_lists ns₁ es₁ Graph.empty)).edges) := by
  refine ⟨rfl, ?_, ?_⟩
  · intro i hi
    simp only [networkx_graph_from_lists, nodes_add_nodes_from]
    exact mem_dkeys_foldl_dinsert_of_mem _ (mem_dkeys_nodes_add_edges_from _ hi)
  · intro k hk
    simp only [networkx_graph_from_lists, edges_add_nodes_from,
      edges_add_edges_from] at hk ⊢
    exact mem_dkeys_foldl_dinsert_of_mem _ hk

/-- C10 witness: after a first call inserting node `1` and edge `1 → 2`, a
second call (inserting nothing) still sees them in the shared default
graph. -/
theorem C10_shared_default_graph_witness :
    "1" ∈ dkeys (networkx_graph_from_lists ([] : List (String × Props))
        ([] : List (String × String × Props))
        (networkx_graph_from_lists [("1", [])] [("1", "2", [])] Graph.empty)).nodes
    ∧ ("1", "2") ∈ dkeys (networkx_graph_from_lists ([] : List (String × Props))
        ([] : List (String × String × Props))
        (networkx_graph_from_lists [("1", [])] [("1", "2", [])] Graph.empty)).edges :=
  ⟨(C10_shared_default_graph [("1", [])] [("1", "2", [])] [] []).2.1 "1" (by decide),
   (C10_shared_default_graph [("1", [])] [("1", "2", [])] [] []).2.2 ("1", "2") (by decide)⟩

theorem to_networkx_edges_format_append_ok {xs ys : List (List String)}
    {out : List (String × String × Props)} {flag : Bool}
    (h : to_networkx_edges_format (xs ++ ys) flag = .ok out) :
    ∃ xs' ys', to_networkx_edges_format xs flag = .ok xs' ∧
      to_networkx_edges_format ys flag = .ok ys' ∧ out = xs' ++ ys' := by
  induction xs generalizing out with
  | nil => exact ⟨[], out, rfl, h, rfl⟩
  | cons r rs ih =>
    rw [List.cons_append] at h
    rcases to_networkx_edges_format_cons_ok.mp h with ⟨rec, rest, h1, h2, rfl⟩
    rcases ih h2 with ⟨xs', ys', h3, h4, rfl⟩
    exact ⟨rec :: xs', ys',
      to_networkx_edges_format_cons_ok.mpr ⟨rec, xs', h1, h3, rfl⟩, h4, rfl⟩

theorem to_networkx_edges_format_mem {rows : List (List String)}
    {out : List (String × String × Props)} {flag : Bool}
    (h : to_networkx_edges_format rows flag = .ok out) :
    ∀ rec ∈ out, ∃ r ∈ rows, edge_record r flag = .ok rec := by
  induction rows generalizing out with
  | nil =>
    intro rec hrec
    rw [show out = [] from (Except.ok.inj h).symm] at hrec
    simp at hrec
  | cons r rs ih =>
    intro rec hrec
    rcases to_networkx_edges_format_cons_ok.mp h with ⟨rec1, rest, h1, h2, rfl⟩
    rcases List.mem_cons.mp hrec with h3 | h3
    · exact ⟨r, by simp, h3 ▸ h1⟩
    · rcases ih h2 rec h3 with ⟨r', hr', h4⟩
      exact ⟨r', by simp [hr'], h4⟩

/-- C3: when two or more edge rows share the same `(source, target)` pair,
the assembled directed graph contains exactly one edge for that pair, and its
Properties are the decoded and merged Properties of the last such row in CSV
order — overwrite, no merge, no error, no parallel edge. -/
theorem C3_duplicate_edges_last_wins
    (rows₁ rows₂ : List (List String)) (e s t l p : String)
    (erecs : List (String × String × Props)) (nodes : List (String × Props))
    (hok : to_networkx_edges_format (rows₁ ++ [e, s, t, l, p] :: rows₂) true = .ok erecs)
    (hdup : ∃ r ∈ rows₁, r.get? 1 = some s ∧ r.get? 2 = some t)
    (hlast : ∀ r ∈ rows₂, ¬(r.get? 1 = some s ∧ r.get? 2 = some t)) :
    ∃ props,
      edge_record [e, s, t, l, p] true = .ok (s, t, props) ∧
      dlookup (s, t)
        (networkx_graph_from_lists nodes erecs Graph.empty).edges = some props ∧
      ((networkx_graph_from_lists nodes erecs Graph.empty).edges.filter
          (fun ed => ed.1 = (s, t))).length = 1 := by
  rcases to_networkx_edges_format_append_ok hok with ⟨xs', mids, h1, h2, rfl⟩
  rcases to_networkx_edges_format_cons_ok.mp h2 with ⟨rec, ys', h3, h4, rfl⟩
  have hshape := edge_record_ok_shape h3
  have hs' : rec.1 = s := by
    have h := hshape.1
    simp only [List.get?] at h
    exact (Option.some.inj h).symm
  have ht' : rec.2.1 = t := by
    have h := hshape.2
    simp only [List.get?] at h
    exact (Option.some.inj h).symm
  have hys : (s, t) ∉ dkeys (keyed ys') := by
    intro hmem
    have hmem' : ∃ q, (s, t, q) ∈ ys' := by
      simpa [keyed, dkeys, List.map_map] using hmem
    rcases hmem' with ⟨q, hq⟩
    rcases to_networkx_edges_format_mem h4 (s, t, q) hq with ⟨r', hr', hok'⟩
    have hsh := edge_record_ok_shape hok'
    exact hlast r' hr' ⟨hsh.1, hsh.2⟩
  have hlastkey : dlookupLast (s, t) (keyed (xs' ++ rec :: ys')) = some rec.2.2 := by
    rw [show keyed (xs' ++ rec :: ys') = keyed xs' ++ keyed (rec :: ys') from by
      simp [keyed]]
    rw [dlookupLast_append]
    have hmid : dlookupLast (s, t) (keyed (rec :: ys')) = some rec.2.2 := by
      simp only [keyed_cons, dlookupLast]
      rw [show dlookupLast (s, t) (List.map (fun x => ((x.1, x.2.1), x.2.2)) ys') =
          Option.none from (dlookupLast_eq_none_iff _ _).mpr hys]
      simp [hs', ht']
    rw [hmid]
  have hedges : (networkx_graph_from_lists nodes (xs' ++ rec :: ys') Graph.empty).edges =
      (keyed (xs' ++ rec :: ys')).foldl (fun l q => dinsert q.1 q.2 l) [] := by
    simp only [networkx_graph_from_lists, edges_add_nodes_from, edges_add_edges_from]
    rfl
  refine ⟨rec.2.2, ?_, ?_, ?_⟩
  · rw [h3, ← hs', ← ht']
  · rw [hedges, dlookup_foldl_dinsert, hlastkey]
  · rw [hedges]
    apply filter_key_length_one
    · exact nodup_dkeys_foldl_dinsert _ (by simp [dkeys])
    · apply mem_dkeys_of_dlookup_eq_some
      rw [dlookup_foldl_dinsert, hlastkey]

/-- C3 witness: two edge rows `1 → 2` (first `interacts` with empty
properties, then `x` with `a ↦ 1`) collapse into one graph edge carrying the
second row's decoded and merged Properties. -/
theorem C3_duplicate_edges_last_wins_witness :
    ∃ props,
      edge_record ["e2", "1", "2", "x", "\x7b\"a\": 1\x7d"] true = .ok ("1", "2", props) ∧
      dlookup ("1", "2") (networkx_graph_from_lists []
        [("1", "2", [("edge_id", Value.str "e1"), ("edge_label", Value.str "interacts")]),
         ("1", "2", [("a", Value.int 1), ("edge_id", Value.str "e2"),
           ("edge_label", Value.str "x")])]
        Graph.empty).edges = some props ∧
      ((networkx_graph_from_lists []
        [("1", "2", [("edge_id", Value.str "e1"), ("edge_label", Value.str "interacts")]),
         ("1", "2", [("a", Value.int 1), ("edge_id", Value.str "e2"),
           ("edge_label", Value.str "x")])]
        Graph.empty).edges.filter (fun ed => ed.1 = ("1", "2"))).length = 1 :=
  C3_duplicate_edges_last_wins
    [["e1", "1", "2", "interacts", "\x7b\x7d"]] [] "e2" "1" "2" "x" "\x7b\"a\": 1\x7d"
    [("1", "2", [("edge_id", Value.str "e1"), ("edge_label", Value.str "interacts")]),
     ("1", "2", [("a", Value.int 1), ("edge_id", Value.str "e2"),
       ("edge_label", Value.str "x")])] []
    (by rfl) (by decide) (by decide)

/-- C6 counterexample: on a readable but record-less CSV file with the header
flag set, the reader raises — the `next` call's `StopIteration` inside the
generator becomes a fatal `RuntimeError` (PEP 479) — instead of producing the
(empty) sequence of rows after the first line. -/
theorem C6_reader_counterexample :
    load_csv_generator [("data.csv", "")] "data.csv" true = .error .stopIterationInGen
    ∧ (csvRecords "").drop 1 = []
    ∧ load_csv_generator [("data.csv", "")] "data.csv" true ≠
        .ok ((csvRecords "").drop 1) := by
  refine ⟨rfl, rfl, ?_⟩
  intro h
  exact Except.noConfusion h

/-- C6 (amended): for every readable CSV file, the reader with the header
flag unset produces all records in file order; with the flag set it produces
exactly the records after the first one, in order, when the file has at least
one record, and raises when the file has none. -/
theorem C6_reader_contract (fs : FS) (path content : String)
    (h : dlookup path fs = some content) :
    load_csv_generator fs path false = .ok (csvRecords content)
    ∧ (∀ r rest, csvRecords content = r :: rest →
        load_csv_generator fs path true = .ok rest
        ∧ (∀ i : Nat, rest.get? i = (csvRecords content).get? (i + 1)))
    ∧ (csvRecords content = [] →
        load_csv_generator fs path true = .error .stopIterationInGen) := by
  refine ⟨?_, ?_, ?_⟩
  · simp [load_csv_generator, h]
  · intro r rest hr
    refine ⟨by simp [load_csv_generator, h, hr], ?_⟩
    intro i
    rw [hr]
    rfl
  · intro hr
    simp [load_csv_generator, h, hr]

/-- C6 witness: on a two-record file, the reader yields both records without
the header flag and only the second with it. -/
theorem C6_reader_contract_witness :
    load_csv_generator [("d.csv", "a,b\nc,d")] "d.csv" false =
      .ok [["a", "b"], ["c", "d"]]
    ∧ load_csv_generator [("d.csv", "a,b\nc,d")] "d.csv" true = .ok [["c", "d"]] := by
  have h := C6_reader_contract [("d.csv", "a,b\nc,d")] "d.csv" "a,b\nc,d" rfl
  exact ⟨h.1.trans (by rfl),
    ((h.2.1 ["a", "b"] [["c", "d"]] (by rfl)).1).trans (by rfl)⟩

/-- A node row without exactly three fields fails tuple unpacking. -/
theorem node_record_malformed {row : List String} (h : row.length ≠ 3) (flag : Bool) :
    node_record row flag = .error (.malformedRow row) := by
  match row with
  | [] => rfl
  | [a] => rfl
  | [a, b] => rfl
  | [a, b, c] => exact absurd rfl h
  | a :: b :: c :: d :: rest => rfl

/-- An edge row without exactly five fields fails tuple unpacking. -/
theorem edge_record_malformed {row : List String} (h : row.length ≠ 5) (flag : Bool) :
    edge_record row flag = .error (.malformedRow row) := by
  match row with
  | [] => rfl
  | [a] => rfl
  | [a, b] => rfl
  | [a, b, c] => rfl
  | [a, b, c, d] => rfl
  | [a, b, c, d, e] => exact absurd rfl h
  | a :: b :: c :: d :: e :: f :: rest => rfl

/-- C7 counterexample: the Dataset Reader itself does not fail on a row whose
field count disagrees with the expected column count — a two-field node row
passes through the reader unchanged (the failure only occurs later, when the
representation builder unpacks the row). -/
theorem C7_reader_counterexample :
    load_csv_generator [("nodes.csv", "id,label,properties\n1,protein")]
      "nodes.csv" true = .ok [["1", "protein"]] := by
  rfl

/-- C7 (amended): the Dataset Reader fails with a file-access error when the
path does not exist; a row with the wrong field count passes through the
reader, and the malformed-row error is raised by the representation builder
when it destructures such a row (3 fields for node rows, 5 for edge rows),
the error propagating so that no output is produced. -/
theorem C7_error_contract :
    (∀ (fs : FS) (path : String) (header : Bool), dlookup path fs = Option.none →
      load_csv_generator fs path header = .error (.fileNotFound path))
    ∧ (∀ row rows, row.length ≠ 3 →
        to_networkx_nodes_format (row :: rows) true = .error (.malformedRow row))
    ∧ (∀ row rows, row.length ≠ 5 →
        to_networkx_edges_format (row :: rows) true = .error (.malformedRow row))
    ∧ (∀ rows out, (∃ row ∈ rows, row.length ≠ 3) →
        to_networkx_nodes_format rows true ≠ .ok out)
    ∧ (∀ rows out, (∃ row ∈ rows, row.length ≠ 5) →
        to_networkx_edges_format rows true ≠ .ok out) := by
  refine ⟨?_, ?_, ?_, ?_, ?_⟩
  · intro fs path header hmiss
    simp [load_csv_generator, hmiss]
  · intro row rows hlen
    rw [to_networkx_nodes_format, node_record_malformed hlen]
  · intro row rows hlen
    rw [to_networkx_edges_format, edge_record_malformed hlen]
  · intro rows
    induction rows with
    | nil =>
      intro out h
      simp at h
    | cons r rs ih =>
      intro out h hok
      rcases to_networkx_nodes_format_cons_ok.mp hok with ⟨rec, rest, h1, h2, rfl⟩
      rcases h with ⟨row, hmem, hlen⟩
      rcases List.mem_cons.mp hmem with h3 | h3
      · subst h3
        rw [node_record_malformed hlen] at h1
        exact Except.noConfusion h1
      · exact ih rest ⟨row, h3, hlen⟩ h2
  · intro rows
    induction rows with
    | nil =>
      intro out h
      simp at h
    | cons r rs ih =>
      intro out h hok
      rcases to_networkx_edges_format_cons_ok.mp hok with ⟨rec, rest, h1, h2, rfl⟩
      rcases h with ⟨row, hmem, hlen⟩
      rcases List.mem_cons.mp hmem with h3 | h3
      · subst h3
        rw [edge_record_malformed hlen] at h1
        exact Except.noConfusion h1
      · exact ih rest ⟨row, h3, hlen⟩ h2

/-- C7 witness: a missing path is a file-access error; a two-field node row
and a four-field edge row are malformed-row errors in the builders. -/
theorem C7_error_contract_witness :
    load_csv_generator [] "missing.csv" true = .error (.fileNotFound "missing.csv")
    ∧ to_networkx_nodes_format [["1", "protein"]] true =
        .error (.malformedRow ["1", "protein"])
    ∧ to_networkx_edges_format [["e1", "1", "2", "x"]] true =
        .error (.malformedRow ["e1", "1", "2", "x"]) :=
  ⟨C7_error_contract.1 [] "missing.csv" true rfl,
   C7_error_contract.2.1 ["1", "protein"] [] (by decide),
   C7_error_contract.2.2.1 ["e1", "1", "2", "x"] [] (by decide)⟩

theorem to_networkx_nodes_format_ok_forall {rows : List (List String)}
    {out : List (String × Props)} {flag : Bool}
    (h : to_networkx_nodes_format rows flag = .ok out) :
    ∀ r ∈ rows, ∃ rec, node_record r flag = .ok rec := by
  induction rows generalizing out with
  | nil =>
    intro r hr
    simp at hr
  | cons r0 rs ih =>
    intro r hr
    rcases to_networkx_nodes_format_cons_ok.mp h with ⟨rec, rest, h1, h2, rfl⟩
    rcases List.mem_cons.mp hr with h3 | h3
    · exact ⟨rec, h3 ▸ h1⟩
    · exact ih h2 r h3

theorem to_networkx_edges_format_ok_forall {rows : List (List String)}
    {out : List (String × String × Props)} {flag : Bool}
    (h : to_networkx_edges_format rows flag = .ok out) :
    ∀ r ∈ rows, ∃ rec, edge_record r flag = .ok rec := by
  induction rows generalizing out with
  | nil =>
    intro r hr
    simp at hr
  | cons r0 rs ih =>
    intro r hr
    rcases to_networkx_edges_format_cons_ok.mp h with ⟨rec, rest, h1, h2, rfl⟩
    rcases List.mem_cons.mp hr with h3 | h3
    · exact ⟨rec, h3 ▸ h1⟩
    · exact ih h2 r h3

/-- A node row whose properties text is not a literal is a decode error. -/
theorem node_record_decode_error {a b c : String} (flag : Bool)
    (h : literal_eval c = Option.none) :
    node_record [a, b, c] flag = .error (.decodeError c) := by
  simp [node_record, h]

/-- An edge row whose properties text is not a literal is a decode error. -/
theorem edge_record_decode_error {a b c d ep : String} (flag : Bool)
    (h : literal_eval ep = Option.none) :
    edge_record [a, b, c, d, ep] flag = .error (.decodeError ep) := by
  simp [edge_record, h]

/-- Under the data model (every decodable properties cell decodes to a
mapping), the only error the node builder can raise on well-arity rows is a
decode error on an undecodable properties text. -/
theorem to_networkx_nodes_format_error_shape (rows : List (List String)) :
    ∀ err, (∀ r ∈ rows, r.length = 3) →
    (∀ a b c, [a, b, c] ∈ rows → ∀ v, literal_eval c = some v → v.asDict.isSome) →
    to_networkx_nodes_format rows true = .error err →
    ∃ s, err = .decodeError s ∧ literal_eval s = Option.none := by
  induction rows with
  | nil =>
    intro err _ _ h
    exact Except.noConfusion h
  | cons r rs ih =>
    intro err harity hwt h
    obtain ⟨a, b, c, rfl⟩ : ∃ a b c, r = [a, b, c] := by
      match r, harity r (by simp) with
      | [a, b, c], _ => exact ⟨a, b, c, rfl⟩
    rcases hc : literal_eval c with _ | v
    · rw [to_networkx_nodes_format, node_record_decode_error true hc] at h
      exact ⟨c, (Except.error.inj h).symm, hc⟩
    · have hd := hwt a b c (by simp) v hc
      rcases hd2 : v.asDict with _ | d
      · rw [hd2] at hd
        exact absurd hd (by simp)
      · have hrec : node_record [a, b, c] true =
            .ok (a, dinsert "node_label" (Value.str b) d) := by
          simp [node_record, hc, hd2]
        rw [to_networkx_nodes_format, hrec] at h
        rcases h2 : to_networkx_nodes_format rs true with e2 | out
        · rw [h2] at h
          rcases ih e2 (fun r' hr => harity r' (List.mem_cons_of_mem _ hr))
              (fun a' b' c' hm => hwt a' b' c' (List.mem_cons_of_mem _ hm)) h2 with
            ⟨s, hdec, hs⟩
          refine ⟨s, ?_, hs⟩
          rw [← Except.error.inj h]
          exact hdec
        · rw [h2] at h
          exact Except.noConfusion h

/-- Under the data model, the only error the edge builder can raise on
well-arity rows is a decode error on an undecodable properties text. -/
theorem to_networkx_edges_format_error_shape (rows : List (List String)) :
    ∀ err, (∀ r ∈ rows, r.length = 5) →
    (∀ a b c d ep, [a, b, c, d, ep] ∈ rows →
      ∀ v, literal_eval ep = some v → v.asDict.isSome) →
    to_networkx_edges_format rows true = .error err →
    ∃ s, err = .decodeError s ∧ literal_eval s = Option.none := by
  induction rows with
  | nil =>
    intro err _ _ h
    exact Except.noConfusion h
  | cons r rs ih =>
    intro err harity hwt h
    obtain ⟨a, b, c, d, ep, rfl⟩ : ∃ a b c d ep, r = [a, b, c, d, ep] := by
      match r, harity r (by simp) with
      | [a, b, c, d, ep], _ => exact ⟨a, b, c, d, ep, rfl⟩
    rcases hc : literal_eval ep with _ | v
    · rw [to_networkx_edges_format, edge_record_decode_error true hc] at h
      exact ⟨ep, (Except.error.inj h).symm, hc⟩
    · have hd := hwt a b c d ep (by simp) v hc
      rcases hd2 : v.asDict with _ | props
      · rw [hd2] at hd
        exact absurd hd (by simp)
      · have hrec : edge_record [a, b, c, d, ep] true =
            .ok (b, c, dinsert "edge_label" (Value.str d)
              (dinsert "edge_id" (Value.str a) props)) := by
          simp [edge_record, hc, hd2]
        rw [to_networkx_edges_format, hrec] at h
        rcases h2 : to_networkx_edges_format rs true with e2 | out
        · rw [h2] at h
          rcases ih e2 (fun r' hr => harity r' (List.mem_cons_of_mem _ hr))
              (fun a' b' c' d' ep' hm =>
                hwt a' b' c' d' ep' (List.mem_cons_of_mem _ hm)) h2 with ⟨s, hdec, hs⟩
          refine ⟨s, ?_, hs⟩
          rw [← Except.error.inj h]
          exact hdec
        · rw [h2] at h
          exact Except.noConfusion h

/-- C5: within the data model (every properties cell that decodes at all
decodes to a mapping), an input in which some properties field is not a valid
literal makes the list-variant pipeline fail with a decode error on an
undecodable field — the error propagates uncaught and no graph (not even a
partial one) is produced. -/
theorem C5_decode_error_fatal (fs : FS) (pn pe : String)
    (nrows erows : List (List String))
    (hn : load_csv_generator fs pn true = .ok nrows)
    (he : load_csv_generator fs pe true = .ok erows)
    (hna : ∀ r ∈ nrows, r.length = 3)
    (hea : ∀ r ∈ erows, r.length = 5)
    (hnw : ∀ a b c, [a, b, c] ∈ nrows → ∀ v, literal_eval c = some v → v.asDict.isSome)
    (hew : ∀ a b c d ep, [a, b, c, d, ep] ∈ erows →
      ∀ v, literal_eval ep = some v → v.asDict.isSome)
    (hbad : (∃ a b c, [a, b, c] ∈ nrows ∧ literal_eval c = Option.none) ∨
            (∃ a b c d ep, [a, b, c, d, ep] ∈ erows ∧ literal_eval ep = Option.none)) :
    ∃ s, pipeline fs pn pe = .error (.decodeError s) ∧
      literal_eval s = Option.none := by
  rcases hE : to_networkx_edges_format erows true with errE | erecs
  · rcases to_networkx_edges_format_error_shape erows errE hea hew hE with ⟨s, rfl, hs⟩
    refine ⟨s, ?_, hs⟩
    simp only [pipeline, hn, he, hE]
  · have hnbad : ∃ a b c, [a, b, c] ∈ nrows ∧ literal_eval c = Option.none := by
      rcases hbad with hb | hb
      · exact hb
      · rcases hb with ⟨a, b, c, d, ep, hm, hnone⟩
        rcases to_networkx_edges_format_ok_forall hE _ hm with ⟨rec, hrec⟩
        rw [edge_record_decode_error true hnone] at hrec
        exact Except.noConfusion hrec
    rcases hN : to_networkx_nodes_format nrows true with errN | nrecs
    · rcases to_networkx_nodes_format_error_shape nrows errN hna hnw hN with ⟨s, rfl, hs⟩
      refine ⟨s, ?_, hs⟩
      simp only [pipeline, hn, he, hE, hN]
    · rcases hnbad with ⟨a, b, c, hm, hnone⟩
      rcases to_networkx_nodes_format_ok_forall hN _ hm with ⟨rec, hrec⟩
      rw [node_record_decode_error true hnone] at hrec
      exact Except.noConfusion hrec

/-- C5 witness: a nodes CSV whose properties field is the invalid literal
`nope` makes the pipeline fail with exactly that decode error. -/
theorem C5_decode_error_fatal_witness :
    ∃ s, pipeline
        [("nodes.csv", "id,label,properties\n1,protein,nope"),
         ("edges.csv", "id,source,target,label,properties")]
        "nodes.csv" "edges.csv" = .error (.decodeError s) ∧
      literal_eval s = Option.none := by
  apply C5_decode_error_fatal _ _ _ [["1", "protein", "nope"]] []
    (by rfl) (by rfl) (by decide) (by decide)
  · intro a b c hm v hv
    simp at hm
    rw [hm.2.2] at hv
    rw [show literal_eval "nope" = Option.none from by decide] at hv
    exact Option.noConfusion hv
  · intro a b c d ep hm v hv
    simp at hm
  · exact Or.inl ⟨"1", "protein", "nope", by decide, by decide⟩

/-- Building a Python dictionary by successive assignment from duplicate-free,
fresh keys just appends the pairs. -/
theorem dmerge_append_of_disjoint {κ α : Type} [DecidableEq κ] :
    ∀ (l : List (κ × α)) (acc : List (κ × α)), (dkeys l).Nodup →
    (∀ k ∈ dkeys l, k ∉ dkeys acc) → dmerge acc l = acc ++ l := by
  intro l
  induction l with
  | nil =>
    intro acc _ _
    simp
  | cons hd tl ih =>
    intro acc hnd hdisj
    obtain ⟨k, v⟩ := hd
    have hnotacc : k ∉ dkeys acc := hdisj k (by simp)
    have hnd' : (dkeys tl).Nodup := hnd.of_cons
    have hhead : k ∉ dkeys tl := (List.nodup_cons.mp (by simpa using hnd)).1
    have hdisj' : ∀ k' ∈ dkeys tl, k' ∉ dkeys (acc ++ [(k, v)]) := by
      intro k' hk' hmem
      have hmem' : (∃ x, (k', x) ∈ acc) ∨ k' = k := by simpa [dkeys] using hmem
      rcases hmem' with ⟨x, hm⟩ | hm
      · exact hdisj k' (by simp [hk']) (List.mem_map_of_mem Prod.fst hm)
      · exact hhead (hm ▸ hk')
    rw [dmerge_cons, dinsert_of_not_mem v hnotacc, ih (acc ++ [(k, v)]) hnd' hdisj']
    simp

/-- The keys of the name/cell pairs surviving a filter on the column name are
the surviving column names, when the row is as long as the header. -/
theorem dkeys_filter_zip {α : Type} (p : String → Bool) :
    ∀ (hs : List String) (row : List α), row.length = hs.length →
    dkeys ((hs.zip row).filter (fun cell => p cell.1)) = hs.filter p := by
  intro hs
  induction hs with
  | nil =>
    intro row _
    simp [dkeys]
  | cons h hs ih =>
    intro row hlen
    cases row with
    | nil => simp at hlen
    | cons x row =>
      simp only [List.length_cons] at hlen
      have e1 : (fun cell => p cell.1) ((h, x) : String × α) = p h := rfl
      simp only [List.zip_cons_cons, List.filter_cons, e1]
      cases hp : p h
      · simp only [Bool.false_eq_true, if_false, ih row (Nat.succ_injective hlen)]
      · simp only [if_true, dkeys_cons, ih row (Nat.succ_injective hlen)]

/-- The cell pairs surviving the filter, with row as long as the header, have
duplicate-free keys whenever the header is duplicate-free. -/
theorem nodup_dkeys_filter_zip {α : Type} (p : String → Bool) (hs : List String)
    (row : List α) (hlen : row.length = hs.length) (hnd : hs.Nodup) :
    (dkeys ((hs.zip row).filter (fun cell => p cell.1))).Nodup := by
  rw [dkeys_filter_zip p hs row hlen]
  exact hnd.filter p

/-- C9: `row_to_dictionary` fails with a configuration error naming a
"keep intact" column that does not exist among the table's columns; on
success the table keeps exactly the kept columns plus one dictionary-valued
`temp_dicts` column whose entries are the remaining columns' cells keyed by
their original column names. -/
theorem C9_row_to_dictionary_contract (df : Df) (cols : List String) :
    ((∃ c ∈ cols, c ∉ df.header) →
      ∃ c, row_to_dictionary df cols = .error (.configError c) ∧
        c ∈ cols ∧ c ∉ df.header)
    ∧ ((∀ c ∈ cols, c ∈ df.header) →
      ∃ out, row_to_dictionary df cols = .ok out ∧
        out.header = df.header.filter (fun h => cols.contains h) ++ ["temp_dicts"] ∧
        out.rows.length = df.rows.length ∧
        (∀ n row, df.header.Nodup → df.rows.get? n = some row →
          row.length = df.header.length →
          ∃ entries, out.rows.get? n = some
              ((((df.header.zip row).filter
                  (fun cell => cols.contains cell.1)).map Prod.snd)
                ++ [Value.dict entries]) ∧
            entries.toProps =
              (df.header.zip row).filter (fun cell => !(cols.contains cell.1)) ∧
            dkeys entries.toProps =
              df.header.filter (fun h => !(cols.contains h)))) := by
  constructor
  · intro hbad
    rcases hfind : cols.find? (fun c => !(df.header.contains c)) with _ | c
    · rcases hbad with ⟨c, hc, hnot⟩
      rw [List.find?_eq_none] at hfind
      exact absurd (by simpa using hnot) (by simpa using hfind c hc)
    · refine ⟨c, ?_, List.mem_of_find?_eq_some hfind, ?_⟩
      · rw [row_to_dictionary, hfind]
      · have := List.find?_some hfind
        simpa using this
  · intro hgood
    have hfind : cols.find? (fun c => !(df.header.contains c)) = Option.none := by
      rw [List.find?_eq_none]
      intro c hc
      simpa using hgood c hc
    refine ⟨_, by rw [row_to_dictionary, hfind], rfl, by simp, ?_⟩
    intro n row hnd hget hlen
    refine ⟨ValueEntries.ofProps
        (dmerge [] ((df.header.zip row).filter
          (fun cell => !(cols.contains cell.1)))), ?_, ?_, ?_⟩
    · rw [List.get?_map, hget]
      rfl
    · rw [ValueEntries.toProps_ofProps]
      exact (dmerge_append_of_disjoint _ []
        (nodup_dkeys_filter_zip (fun h => !(cols.contains h)) df.header row hlen hnd)
        (by simp)).trans (List.nil_append _)
    · rw [ValueEntries.toProps_ofProps,
        dmerge_append_of_disjoint _ []
          (nodup_dkeys_filter_zip (fun h => !(cols.contains h)) df.header row hlen hnd)
          (by simp), List.nil_append]
      exact dkeys_filter_zip (fun h => !(cols.contains h)) df.header row hlen

/-- C9 witness: with header `UniProt ID, node_label, properties`, keeping a
non-existent column is a configuration error, while keeping
`UniProt ID`/`properties` collapses exactly the `node_label` column into the
dictionary column. -/
theorem C9_row_to_dictionary_contract_witness :
    (∃ c, row_to_dictionary
        ⟨["UniProt ID", "node_label", "properties"],
         [[Value.str "1", Value.str "p", Value.str "x"]]⟩
        ["UniProt ID", "missing"] = .error (.configError c) ∧
      c ∈ ["UniProt ID", "missing"] ∧
      c ∉ ["UniProt ID", "node_label", "properties"])
    ∧ (∃ out, row_to_dictionary
        ⟨["UniProt ID", "node_label", "properties"],
         [[Value.str "1", Value.str "p", Value.str "x"]]⟩
        ["UniProt ID", "properties"] = .ok out ∧
      out.header = ["UniProt ID", "properties", "temp_dicts"] ∧
      out.rows.length = 1) := by
  constructor
  · exact (C9_row_to_dictionary_contract
        ⟨["UniProt ID", "node_label", "properties"],
         [[Value.str "1", Value.str "p", Value.str "x"]]⟩
        ["UniProt ID", "missing"]).1 (by decide)
  · rcases (C9_row_to_dictionary_contract
        ⟨["UniProt ID", "node_label", "properties"],
         [[Value.str "1", Value.str "p", Value.str "x"]]⟩
        ["UniProt ID", "properties"]).2 (by decide) with ⟨out, hok, hhd, hlen, _⟩
    exact ⟨out, hok, hhd.trans (by decide), hlen.trans (by decide)⟩

/-! ## The C1 equivalence: shared lemmas -/
theorem node_record_ok_inv {a b c : String} {rec : String × Props}
    (h : node_record [a, b, c] true = .ok rec) :
    ∃ v d, literal_eval c = some v ∧ v.asDict = some d ∧
      rec = (a, dinsert "node_label" (Value.str b) d) := by
  rcases hv : literal_eval c with _ | v
  · simp [node_record, hv] at h
  · rcases hd : v.asDict with _ | d
    · simp [node_record, hv, hd] at h
    · simp only [node_record, hv, hd, if_true, Except.ok.injEq] at h
      exact ⟨v, d, rfl, hd, h.symm⟩

theorem edge_record_ok_inv {ei s t el pr : String} {rec : String × String × Props}
    (h : edge_record [ei, s, t, el, pr] true = .ok rec) :
    ∃ v d, literal_eval pr = some v ∧ v.asDict = some d ∧
      rec = (s, t, dinsert "edge_label" (Value.str el)
        (dinsert "edge_id" (Value.str ei) d)) := by
  rcases hv : literal_eval pr with _ | v
  · simp [edge_record, hv] at h
  · rcases hd : v.asDict with _ | d
    · simp [edge_record, hv, hd] at h
    · simp only [edge_record, hv, hd, if_true, Except.ok.injEq] at h
      exact ⟨v, d, rfl, hd, h.symm⟩

/-- Success case of `row_to_dictionary`, in closed form. -/
theorem row_to_dictionary_rows (hdr : List String) (rows : List (List Value))
    (cols : List String) (hgood : ∀ c ∈ cols, c ∈ hdr) :
    row_to_dictionary ⟨hdr, rows⟩ cols =
      .ok ⟨hdr.filter (fun h => cols.contains h) ++ ["temp_dicts"],
        rows.map (fun row =>
          ((hdr.zip row).filter (fun cell => cols.contains cell.1)).map Prod.snd
          ++ [Value.dict (ValueEntries.ofProps (dmerge []
               ((hdr.zip row).filter (fun cell => !(cols.contains cell.1)))))])⟩ := by
  have hfind : cols.find? (fun c => !(hdr.contains c)) = Option.none := by
    rw [List.find?_eq_none]
    intro c hc
    simpa using hgood c hc
  simp only [row_to_dictionary, hfind]

/-- Collapsing the canonical node table: each three-field row keeps the id and
properties cells and packs the label under `node_label`. -/
theorem collapse_nodes_rows (nrows : List (List String))
    (harity : ∀ r ∈ nrows, r.length = 3) :
    (nrows.map (fun r => r.map Value.str)).map
      (fun row =>
        (((["UniProt ID", "node_label", "properties"] : List String).zip row).filter
            (fun cell => (["UniProt ID", "properties"] : List String).contains cell.1)).map
          Prod.snd
        ++ [Value.dict (ValueEntries.ofProps (dmerge []
             (((["UniProt ID", "node_label", "properties"] : List String).zip row).filter
               (fun cell =>
                 !((["UniProt ID", "properties"] : List String).contains cell.1)))))]) =
      nrows.map (fun r =>
        [Value.str (r.getD 0 ""), Value.str (r.getD 2 ""),
         Value.dict (ValueEntries.ofProps
           [("node_label", Value.str (r.getD 1 ""))])]) := by
  rw [List.map_map]
  apply List.map_congr_left
  intro r hr
  match r, harity r hr with
  | [a, b, c], _ => rfl

/-- Collapsing the canonical edge table: each five-field row keeps the source,
target and properties cells and packs the id and label under `edge_id` and
`edge_label`. -/
theorem collapse_edges_rows (erows : List (List String))
    (harity : ∀ r ∈ erows, r.length = 5) :
    (erows.map (fun r => r.map Value.str)).map
      (fun row =>
        (((["edge_id", "Source ID", "Target ID", "edge_label", "properties"] :
              List String).zip row).filter
            (fun cell =>
              (["Source ID", "Target ID", "properties"] : List String).contains
                cell.1)).map Prod.snd
        ++ [Value.dict (ValueEntries.ofProps (dmerge []
             ((((["edge_id", "Source ID", "Target ID", "edge_label", "properties"] :
                  List String)).zip row).filter
               (fun cell =>
                 !((["Source ID", "Target ID", "properties"] : List String).contains
                   cell.1)))))]) =
      erows.map (fun r =>
        [Value.str (r.getD 1 ""), Value.str (r.getD 2 ""), Value.str (r.getD 4 ""),
         Value.dict (ValueEntries.ofProps
           [("edge_id", Value.str (r.getD 0 "")),
            ("edge_label", Value.str (r.getD 3 ""))])]) := by
  rw [List.map_map]
  apply List.map_congr_left
  intro r hr
  match r, harity r hr with
  | [a, b, c, d, e], _ => rfl

/-- The decode and merge passes over the collapsed canonical node rows: the
merged-and-dropped rows are exactly the node records' id and Properties. -/
theorem nodes_decode_merge_stage :
    ∀ (nrows : List (List String)) (nrecs : List (String × Props)),
    to_networkx_nodes_format nrows true = .ok nrecs →
    ∃ decoded,
      decodeColumn 1 (nrows.map (fun r =>
        [Value.str (r.getD 0 ""), Value.str (r.getD 2 ""),
         Value.dict (ValueEntries.ofProps
           [("node_label", Value.str (r.getD 1 ""))])])) = .ok decoded ∧
      ∃ merged, mergeColumn 1 2 decoded = .ok merged ∧
        merged.map (fun row => row.eraseIdx 2) =
          nrecs.map (fun rec =>
            [Value.str rec.1, Value.dict (ValueEntries.ofProps rec.2)]) := by
  intro nrows
  induction nrows with
  | nil =>
    intro nrecs hok
    cases Except.ok.inj hok
    exact ⟨[], rfl, [], rfl, rfl⟩
  | cons r rest ih =>
    intro nrecs hok
    rcases to_networkx_nodes_format_cons_ok.mp hok with ⟨rec, recs, h1, h2, rfl⟩
    obtain ⟨a, b, c, rfl⟩ : ∃ a b c, r = [a, b, c] := by
      match r, h1 with
      | [a, b, c], _ => exact ⟨a, b, c, rfl⟩
    rcases node_record_ok_inv h1 with ⟨v, d, hv, hd, rfl⟩
    rcases ih recs h2 with ⟨decoded, hdec, merged, hmer, herase⟩
    have hcell : decodeCell 1
        [Value.str ([a, b, c].getD 0 ""), Value.str ([a, b, c].getD 2 ""),
         Value.dict (ValueEntries.ofProps
           [("node_label", Value.str ([a, b, c].getD 1 ""))])] =
        .ok [Value.str a, v,
          Value.dict (ValueEntries.ofProps [("node_label", Value.str b)])] := by
      simp [decodeCell, hv]
    have hmc : mergeCells 1 2
        [Value.str a, v,
         Value.dict (ValueEntries.ofProps [("node_label", Value.str b)])] =
        .ok [Value.str a,
          Value.dict (ValueEntries.ofProps (dinsert "node_label" (Value.str b) d)),
          Value.dict (ValueEntries.ofProps [("node_label", Value.str b)])] := by
      simp [mergeCells, hd]
    refine ⟨([Value.str a, v,
        Value.dict (ValueEntries.ofProps [("node_label", Value.str b)])]) :: decoded,
      ?_, ([Value.str a,
        Value.dict (ValueEntries.ofProps
          (dinsert "node_label" (Value.str b) d)),
        Value.dict (ValueEntries.ofProps [("node_label", Value.str b)])]) :: merged,
      ?_, ?_⟩
    · simp only [List.map_cons, decodeColumn, hcell, hdec]
    · simp only [mergeColumn, hmc, hmer]
    · simp only [List.map_cons, herase]
      rfl

/-- The decode and merge passes over the collapsed canonical edge rows. -/
theorem edges_decode_merge_stage :
    ∀ (erows : List (List String)) (erecs : List (String × String × Props)),
    to_networkx_edges_format erows true = .ok erecs →
    ∃ decoded,
      decodeColumn 2 (erows.map (fun r =>
        [Value.str (r.getD 1 ""), Value.str (r.getD 2 ""), Value.str (r.getD 4 ""),
         Value.dict (ValueEntries.ofProps
           [("edge_id", Value.str (r.getD 0 "")),
            ("edge_label", Value.str (r.getD 3 ""))])])) = .ok decoded ∧
      ∃ merged, mergeColumn 2 3 decoded = .ok merged ∧
        merged.map (fun row => row.eraseIdx 3) =
          erecs.map (fun rec =>
            [Value.str rec.1, Value.str rec.2.1,
             Value.dict (ValueEntries.ofProps rec.2.2)]) := by
  intro erows
  induction erows with
  | nil =>
    intro erecs hok
    cases Except.ok.inj hok
    exact ⟨[], rfl, [], rfl, rfl⟩
  | cons r rest ih =>
    intro erecs hok
    rcases to_networkx_edges_format_cons_ok.mp hok with ⟨rec, recs, h1, h2, rfl⟩
    obtain ⟨ei, s, t, el, pr, rfl⟩ : ∃ ei s t el pr, r = [ei, s, t, el, pr] := by
      match r, h1 with
      | [ei, s, t, el, pr], _ => exact ⟨ei, s, t, el, pr, rfl⟩
    rcases edge_record_ok_inv h1 with ⟨v, d, hv, hd, rfl⟩
    rcases ih recs h2 with ⟨decoded, hdec, merged, hmer, herase⟩
    have hcell : decodeCell 2
        [Value.str ([ei, s, t, el, pr].getD 1 ""),
         Value.str ([ei, s, t, el, pr].getD 2 ""),
         Value.str ([ei, s, t, el, pr].getD 4 ""),
         Value.dict (ValueEntries.ofProps
           [("edge_id", Value.str ([ei, s, t, el, pr].getD 0 "")),
            ("edge_label", Value.str ([ei, s, t, el, pr].getD 3 ""))])] =
        .ok [Value.str s, Value.str t, v,
          Value.dict (ValueEntries.ofProps
            [("edge_id", Value.str ei), ("edge_label", Value.str el)])] := by
      simp [decodeCell, hv]
    have hmc : mergeCells 2 3
        [Value.str s, Value.str t, v,
         Value.dict (ValueEntries.ofProps
           [("edge_id", Value.str ei), ("edge_label", Value.str el)])] =
        .ok [Value.str s, Value.str t,
          Value.dict (ValueEntries.ofProps
            (dinsert "edge_label" (Value.str el)
              (dinsert "edge_id" (Value.str ei) d))),
          Value.dict (ValueEntries.ofProps
            [("edge_id", Value.str ei), ("edge_label", Value.str el)])] := by
      simp [mergeCells, hd, dmerge_cons]
    refine ⟨([Value.str s, Value.str t, v,
        Value.dict (ValueEntries.ofProps
          [("edge_id", Value.str ei), ("edge_label", Value.str el)])]) :: decoded,
      ?_, ([Value.str s, Value.str t,
        Value.dict (ValueEntries.ofProps
          (dinsert "edge_label" (Value.str el) (dinsert "edge_id" (Value.str ei) d))),
        Value.dict (ValueEntries.ofProps
          [("edge_id", Value.str ei), ("edge_label", Value.str el)])]) :: merged,
      ?_, ?_⟩
    · simp only [List.map_cons, decodeColumn, hcell, hdec]
    · simp only [mergeColumn, hmc, hmer]
    · simp only [List.map_cons, herase]
      rfl

/-- Behavior of `merge_properties` on the collapsed canonical node table. -/
theorem merge_properties_nodes_canonical (rows decoded merged : List (List Value))
    (hdec : decodeColumn 1 rows = .ok decoded)
    (hmer : mergeColumn 1 2 decoded = .ok merged) :
    merge_properties ⟨["UniProt ID", "properties", "temp_dicts"], rows⟩
      "properties" "temp_dicts" =
      .ok ⟨["UniProt ID", "properties"], merged.map (fun row => row.eraseIdx 2)⟩ := by
  have hi : (["UniProt ID", "properties", "temp_dicts"] : List String).findIdx?
      (· = "properties") = some 1 := rfl
  have hj : (["UniProt ID", "properties", "temp_dicts"] : List String).findIdx?
      (· = "temp_dicts") = some 2 := rfl
  simp only [merge_properties, hi, hj, hdec, hmer]
  rfl

/-- Behavior of `merge_properties` on the collapsed canonical edge table. -/
theorem merge_properties_edges_canonical (rows decoded merged : List (List Value))
    (hdec : decodeColumn 2 rows = .ok decoded)
    (hmer : mergeColumn 2 3 decoded = .ok merged) :
    merge_properties
      ⟨["Source ID", "Target ID", "properties", "temp_dicts"], rows⟩
      "properties" "temp_dicts" =
      .ok ⟨["Source ID", "Target ID", "properties"],
        merged.map (fun row => row.eraseIdx 3)⟩ := by
  have hi : (["Source ID", "Target ID", "properties", "temp_dicts"] :
      List String).findIdx? (· = "properties") = some 2 := rfl
  have hj : (["Source ID", "Target ID", "properties", "temp_dicts"] :
      List String).findIdx? (· = "temp_dicts") = some 3 := rfl
  simp only [merge_properties, hi, hj, hdec, hmer]
  rfl

/-- The dataframe node builder on the canonical node table produces one row
per node record, holding the record's id and its Properties as a
dictionary-valued cell, under the canonical `source`/`properties` names. -/
theorem df_to_networkx_nodes_canonical (nrows : List (List String))
    (nrecs : List (String × Props))
    (harity : ∀ r ∈ nrows, r.length = 3)
    (hok : to_networkx_nodes_format nrows true = .ok nrecs) :
    df_to_networkx_nodes
      ⟨["UniProt ID", "node_label", "properties"],
       nrows.map (fun r => r.map Value.str)⟩
      ["UniProt ID", "properties"]
      [("UniProt ID", "source"), ("properties", "properties")] =
      .ok ⟨["source", "properties"],
        nrecs.map (fun rec =>
          [Value.str rec.1, Value.dict (ValueEntries.ofProps rec.2)])⟩ := by
  rcases nodes_decode_merge_stage nrows nrecs hok with ⟨decoded, hdec, merged, hmer, herase⟩
  have h1 := row_to_dictionary_rows ["UniProt ID", "node_label", "properties"]
    (nrows.map (fun r => r.map Value.str)) ["UniProt ID", "properties"] (by decide)
  rw [collapse_nodes_rows nrows harity] at h1
  have h1' : row_to_dictionary
      ⟨["UniProt ID", "node_label", "properties"],
       nrows.map (fun r => r.map Value.str)⟩ ["UniProt ID", "properties"] =
      .ok ⟨["UniProt ID", "properties", "temp_dicts"],
        nrows.map (fun r =>
          [Value.str (r.getD 0 ""), Value.str (r.getD 2 ""),
           Value.dict (ValueEntries.ofProps
             [("node_label", Value.str (r.getD 1 ""))])])⟩ := h1
  simp only [df_to_networkx_nodes, h1',
    merge_properties_nodes_canonical _ decoded merged hdec hmer]
  simp only [change_column_names]
  rw [herase]
  rfl

/-- The dataframe edge builder on the canonical edge table. -/
theorem df_to_networkx_edges_canonical (erows : List (List String))
    (erecs : List (String × String × Props))
    (harity : ∀ r ∈ erows, r.length = 5)
    (hok : to_networkx_edges_format erows true = .ok erecs) :
    df_to_networkx_edges
      ⟨["edge_id", "Source ID", "Target ID", "edge_label", "properties"],
       erows.map (fun r => r.map Value.str)⟩
      ["Source ID", "Target ID", "properties"]
      [("Source ID", "source"), ("Target ID", "target"),
       ("properties", "properties")] =
      .ok ⟨["source", "target", "properties"],
        erecs.map (fun rec =>
          [Value.str rec.1, Value.str rec.2.1,
           Value.dict (ValueEntries.ofProps rec.2.2)])⟩ := by
  rcases edges_decode_merge_stage erows erecs hok with ⟨decoded, hdec, merged, hmer, herase⟩
  have h1 := row_to_dictionary_rows
    ["edge_id", "Source ID", "Target ID", "edge_label", "properties"]
    (erows.map (fun r => r.map Value.str))
    ["Source ID", "Target ID", "properties"] (by decide)
  rw [collapse_edges_rows erows harity] at h1
  have h1' : row_to_dictionary
      ⟨["edge_id", "Source ID", "Target ID", "edge_label", "properties"],
       erows.map (fun r => r.map Value.str)⟩
      ["Source ID", "Target ID", "properties"] =
      .ok ⟨["Source ID", "Target ID", "properties", "temp_dicts"],
        erows.map (fun r =>
          [Value.str (r.getD 1 ""), Value.str (r.getD 2 ""),
           Value.str (r.getD 4 ""),
           Value.dict (ValueEntries.ofProps
             [("edge_id", Value.str (r.getD 0 "")),
              ("edge_label", Value.str (r.getD 3 ""))])])⟩ := h1
  simp only [df_to_networkx_edges, h1',
    merge_properties_edges_canonical _ decoded merged hdec hmer]
  simp only [change_column_names]
  rw [herase]
  rfl

theorem nodePairsOf_map (l : List (String × Props)) :
    nodePairsOf (l.map (fun rec =>
      (Value.str rec.1, Value.dict (ValueEntries.ofProps rec.2)))) =
      .ok (l.map (fun rec => (Value.str rec.1, rec.2))) := by
  induction l with
  | nil => rfl
  | cons rec rest ih =>
    simp only [List.map_cons, nodePairsOf, Value.asDict_dict,
      ValueEntries.toProps_ofProps, ih]

theorem edgeTriplesOf_map (l : List (String × String × Props)) :
    edgeTriplesOf (l.map (fun rec =>
      (Value.str rec.1, Value.str rec.2.1,
        Value.dict (ValueEntries.ofProps rec.2.2)))) =
      .ok (l.map (fun rec => (Value.str rec.1, Value.str rec.2.1, rec.2.2))) := by
  induction l with
  | nil => rfl
  | cons rec rest ih =>
    simp only [List.map_cons, edgeTriplesOf, Value.asDict_dict,
      ValueEntries.toProps_ofProps, ih]

/-- Reading the node pairs off the canonical builder output table. -/
theorem pandas_node_pairs_canonical (nrecs : List (String × Props)) :
    pandas_node_pairs ⟨["source", "properties"],
      nrecs.map (fun rec =>
        [Value.str rec.1, Value.dict (ValueEntries.ofProps rec.2)])⟩ =
      .ok (nrecs.map (fun rec => (Value.str rec.1, rec.2))) := by
  have hsrc : getCol ⟨["source", "properties"],
      nrecs.map (fun rec =>
        [Value.str rec.1, Value.dict (ValueEntries.ofProps rec.2)])⟩ "source" =
      .ok ((nrecs.map (fun rec =>
        [Value.str rec.1, Value.dict (ValueEntries.ofProps rec.2)])).map
          (fun row => (row.get? 0).getD Value.none)) := rfl
  have hprop : getCol ⟨["source", "properties"],
      nrecs.map (fun rec =>
        [Value.str rec.1, Value.dict (ValueEntries.ofProps rec.2)])⟩ "properties" =
      .ok ((nrecs.map (fun rec =>
        [Value.str rec.1, Value.dict (ValueEntries.ofProps rec.2)])).map
          (fun row => (row.get? 1).getD Value.none)) := rfl
  simp only [pandas_node_pairs, hsrc, hprop, List.map_map, List.zip_map']
  rw [show nrecs.map (fun rec =>
      (((fun row => (row.get? 0).getD Value.none) ∘ (fun rec' =>
          [Value.str rec'.1, Value.dict (ValueEntries.ofProps rec'.2)])) rec,
       ((fun row => (row.get? 1).getD Value.none) ∘ (fun rec' =>
          [Value.str rec'.1, Value.dict (ValueEntries.ofProps rec'.2)])) rec)) =
    nrecs.map (fun rec =>
      (Value.str rec.1, Value.dict (ValueEntries.ofProps rec.2))) from
    List.map_congr_left (fun x _ => rfl)]
  exact nodePairsOf_map nrecs

/-- Reading the edge triples off the canonical builder output table. -/
theorem pandas_edge_triples_canonical (erecs : List (String × String × Props)) :
    pandas_edge_triples ⟨["source", "target", "properties"],
      erecs.map (fun rec =>
        [Value.str rec.1, Value.str rec.2.1,
         Value.dict (ValueEntries.ofProps rec.2.2)])⟩ =
      .ok (erecs.map (fun rec =>
        (Value.str rec.1, Value.str rec.2.1, rec.2.2))) := by
  have hsrc : getCol ⟨["source", "target", "properties"],
      erecs.map (fun rec =>
        [Value.str rec.1, Value.str rec.2.1,
         Value.dict (ValueEntries.ofProps rec.2.2)])⟩ "source" =
      .ok ((erecs.map (fun rec =>
        [Value.str rec.1, Value.str rec.2.1,
         Value.dict (ValueEntries.ofProps rec.2.2)])).map
          (fun row => (row.get? 0).getD Value.none)) := rfl
  have htgt : getCol ⟨["source", "target", "properties"],
      erecs.map (fun rec =>
        [Value.str rec.1, Value.str rec.2.1,
         Value.dict (ValueEntries.ofProps rec.2.2)])⟩ "target" =
      .ok ((erecs.map (fun rec =>
        [Value.str rec.1, Value.str rec.2.1,
         Value.dict (ValueEntries.ofProps rec.2.2)])).map
          (fun row => (row.get? 1).getD Value.none)) := rfl
  have hprop : getCol ⟨["source", "target", "properties"],
      erecs.map (fun rec =>
        [Value.str rec.1, Value.str rec.2.1,
         Value.dict (ValueEntries.ofProps rec.2.2)])⟩ "properties" =
      .ok ((erecs.map (fun rec =>
        [Value.str rec.1, Value.str rec.2.1,
         Value.dict (ValueEntries.ofProps rec.2.2)])).map
          (fun row => (row.get? 2).getD Value.none)) := rfl
  simp only [pandas_edge_triples, hsrc, htgt, hprop, List.map_map, List.zip_map']
  rw [show erecs.map (fun rec =>
      (((fun row => (row.get? 0).getD Value.none) ∘ (fun rec' =>
          [Value.str rec'.1, Value.str rec'.2.1,
           Value.dict (ValueEntries.ofProps rec'.2.2)])) rec,
       ((fun row => (row.get? 1).getD Value.none) ∘ (fun rec' =>
          [Value.str rec'.1, Value.str rec'.2.1,
           Value.dict (ValueEntries.ofProps rec'.2.2)])) rec,
       ((fun row => (row.get? 2).getD Value.none) ∘ (fun rec' =>
          [Value.str rec'.1, Value.str rec'.2.1,
           Value.dict (ValueEntries.ofProps rec'.2.2)])) rec)) =
    erecs.map (fun rec =>
      (Value.str rec.1, Value.str rec.2.1,
       Value.dict (ValueEntries.ofProps rec.2.2))) from
    List.map_congr_left (fun x _ => rfl)]
  exact edgeTriplesOf_map erecs

@[simp] theorem adjLookup_nil (s t : String) : adjLookup [] s t = Option.none := rfl

theorem adjLookup_adjInsert (m : AdjMap) (s t : String) (p : Props) (s' t' : String) :
    adjLookup (adjInsert s t p m) s' t' =
      if s' = s ∧ t' = t then some p else adjLookup m s' t' := by
  induction m with
  | nil =>
    by_cases hs : s = s'
    · by_cases ht : t = t'
      · simp [adjInsert, adjLookup, dlookup, hs, ht]
      · have ht' : ¬t' = t := fun h => ht h.symm
        simp [adjInsert, adjLookup, dlookup, hs, ht, ht']
    · have hs' : ¬s' = s := fun h => hs h.symm
      simp [adjInsert, adjLookup, dlookup, hs, hs']
  | cons hd rest ih =>
    obtain ⟨s0, inner⟩ := hd
    by_cases h0 : s0 = s
    · by_cases hs : s0 = s'
      · have hs1 : s' = s := hs ▸ h0
        by_cases ht : t' = t
        · simp only [adjInsert, if_pos h0, adjLookup, dlookup, if_pos hs,
            if_pos (And.intro hs1 ht)]
          rw [ht, dlookup_dinsert]
        · simp only [adjInsert, if_pos h0, adjLookup, dlookup, if_pos hs,
            if_neg (fun hh : s' = s ∧ t' = t => ht hh.2)]
          exact dlookup_dinsert_ne _ _ ht
      · have hs1 : ¬s' = s := fun h => hs (h0.trans h.symm)
        simp only [adjInsert, if_pos h0, adjLookup, dlookup, if_neg hs,
          if_neg (fun hh : s' = s ∧ t' = t => hs1 hh.1)]
    · by_cases hs : s0 = s'
      · have hs1 : ¬s' = s := fun h => h0 (hs.trans h)
        simp only [adjInsert, if_neg h0, adjLookup, dlookup, if_pos hs,
          if_neg (fun hh : s' = s ∧ t' = t => hs1 hh.1)]
      · simp only [adjInsert, if_neg h0, adjLookup, dlookup, if_neg hs]
        exact ih

theorem mem_adjFlatten_adjInsert {m : AdjMap} {s t : String} {p : Props}
    (hfresh : adjLookup m s t = Option.none) (x : String × String × Props) :
    x ∈ adjFlatten (adjInsert s t p m) ↔ x = (s, t, p) ∨ x ∈ adjFlatten m := by
  induction m with
  | nil =>
    simp [adjInsert, adjFlatten]
  | cons hd rest ih =>
    obtain ⟨s0, inner⟩ := hd
    by_cases h0 : s0 = s
    · subst h0
      have htin : t ∉ dkeys inner := by
        have h1 : dlookup t inner = Option.none := by
          simpa [adjLookup, dlookup] using hfresh
        exact (dlookup_eq_none_iff _ _).mp h1
      rw [show adjInsert s0 t p ((s0, inner) :: rest) =
          (s0, dinsert t p inner) :: rest from by simp [adjInsert]]
      rw [dinsert_of_not_mem p htin]
      have hstep : adjFlatten ((s0, inner ++ [(t, p)]) :: rest) =
          ((inner ++ [(t, p)]).map (fun e => (s0, e.1, e.2))) ++ adjFlatten rest := rfl
      have hstep2 : adjFlatten ((s0, inner) :: rest) =
          (inner.map (fun e => (s0, e.1, e.2))) ++ adjFlatten rest := rfl
      rw [hstep, hstep2, List.map_append]
      simp only [List.mem_append, List.map_cons, List.map_nil, List.mem_singleton]
      tauto
    · have hfresh' : adjLookup rest s t = Option.none := by
        simpa [adjLookup, dlookup, h0] using hfresh
      have hins : adjInsert s t p ((s0, inner) :: rest) =
          (s0, inner) :: adjInsert s t p rest := by
        simp [adjInsert, h0]
      rw [hins]
      have hstep : adjFlatten ((s0, inner) :: adjInsert s t p rest) =
          (inner.map (fun e => (s0, e.1, e.2))) ++ adjFlatten (adjInsert s t p rest) :=
        rfl
      have hstep2 : adjFlatten ((s0, inner) :: rest) =
          (inner.map (fun e => (s0, e.1, e.2))) ++ adjFlatten rest := rfl
      rw [hstep, hstep2, List.mem_append, List.mem_append, ih hfresh']
      tauto

theorem mem_adjFold (es : List (String × String × Props)) :
    ∀ (m : AdjMap), (∀ e ∈ es, adjLookup m e.1 e.2.1 = Option.none) →
    (dkeys (keyed es)).Nodup →
    ∀ x, x ∈ adjFlatten (es.foldl (fun m' e => adjInsert e.1 e.2.1 e.2.2 m') m) ↔
      x ∈ es ∨ x ∈ adjFlatten m := by
  induction es with
  | nil =>
    intro m _ _ x
    simp
  | cons e rest ih =>
    intro m hfresh hnd x
    have hkey : (e.1, e.2.1) ∉ dkeys (keyed rest) :=
      (List.nodup_cons.mp (by simpa using hnd)).1
    have hfresh' : ∀ e' ∈ rest, adjLookup (adjInsert e.1 e.2.1 e.2.2 m) e'.1 e'.2.1 =
        Option.none := by
      intro e' he'
      rw [adjLookup_adjInsert]
      have hne : ¬(e'.1 = e.1 ∧ e'.2.1 = e.2.1) := by
        intro hh
        exact hkey (by
          have : (e'.1, e'.2.1) ∈ dkeys (keyed rest) := by
            simp only [keyed, dkeys, List.map_map]
            exact List.mem_map_of_mem _ he'
          rw [hh.1, hh.2] at this
          exact this)
      rw [if_neg hne]
      exact hfresh e' (List.mem_cons_of_mem _ he')
    have step : (e :: rest).foldl (fun m' e' => adjInsert e'.1 e'.2.1 e'.2.2 m') m =
        rest.foldl (fun m' e' => adjInsert e'.1 e'.2.1 e'.2.2 m')
          (adjInsert e.1 e.2.1 e.2.2 m) := rfl
    rw [step, ih _ hfresh' (List.Nodup.of_cons (by simpa using hnd)),
      mem_adjFlatten_adjInsert (hfresh e (by simp))]
    constructor
    · rintro (h | h | h)
      · exact Or.inl (List.mem_cons_of_mem _ h)
      · exact Or.inl (h ▸ List.mem_cons_self _ _)
      · exact Or.inr h
    · rintro (h | h)
      · rcases List.mem_cons.mp h with h2 | h2
        · exact Or.inr (Or.inl (by rw [h2]))
        · exact Or.inl h2
      · exact Or.inr (Or.inr h)

/-- C1 counterexample: on the same nodes CSV — whose label column is named
`label` — the list builder stores the label under the reserved key
`node_label` while the dataframe builder keys it by the column name `label`;
the two builders' (node id, Properties) outputs are singletons whose
Properties mappings differ at the key `node_label`, so the node sets are not
equal with equal Properties mappings. -/
theorem C1_counterexample :
    load_csv_generator
      [("nodes.csv", "UniProt ID,label,properties\nn1,protein,\"\x7b\x7d\"")]
      "nodes.csv" true = .ok [["n1", "protein", "\x7b\x7d"]]
    ∧ to_networkx_nodes_format [["n1", "protein", "\x7b\x7d"]] true =
        .ok [("n1", [("node_label", Value.str "protein")])]
    ∧ pandas_nodes_output "UniProt ID,label,properties\nn1,protein,\"\x7b\x7d\"" =
        .ok [(Value.str "n1", [("label", Value.str "protein")])]
    ∧ dlookup "node_label" ([("node_label", Value.str "protein")] : Props) =
        some (Value.str "protein")
    ∧ dlookup "node_label" ([("label", Value.str "protein")] : Props) =
        Option.none := by
  exact ⟨rfl, rfl, rfl, rfl, rfl⟩

/-- C1 (amended): for CSV pairs whose headers name the collapsed columns with
the reserved keys — `UniProt ID, node_label, properties` for nodes and
`edge_id, Source ID, Target ID, edge_label, properties` for edges, the names
the dataframe pipeline's configuration requires — with well-arity rows and
property mapping enabled, the dataframe builder's node pairs and edge triples
equal the list builder's records (identifiers wrapped as values), and, when
node ids and `(source, target)` pairs are duplicate-free, the dictionary
builder materializes exactly the list builder's node records and its
flattened Adjacency Map is set-equal to the list builder's edge records. -/
theorem C1_builders_agree
    (ncontent econtent : String)
    (nrows erows : List (List String))
    (nrecs : List (String × Props)) (erecs : List (String × String × Props))
    (hnc : csvRecords ncontent =
      ["UniProt ID", "node_label", "properties"] :: nrows)
    (hec : csvRecords econtent =
      ["edge_id", "Source ID", "Target ID", "edge_label", "properties"] :: erows)
    (hna : ∀ r ∈ nrows, r.length = 3)
    (hea : ∀ r ∈ erows, r.length = 5)
    (hn : to_networkx_nodes_format nrows true = .ok nrecs)
    (he : to_networkx_edges_format erows true = .ok erecs)
    (hndn : (dkeys nrecs).Nodup)
    (hnde : (dkeys (keyed erecs)).Nodup) :
    pandas_nodes_output ncontent =
      .ok (nrecs.map (fun rec => (Value.str rec.1, rec.2)))
    ∧ pandas_edges_output econtent =
      .ok (erecs.map (fun rec => (Value.str rec.1, Value.str rec.2.1, rec.2.2)))
    ∧ ∃ amap, create_dictionaries nrows erows = .ok (nrecs, amap)
        ∧ (∀ x, x ∈ adjFlatten amap ↔ x ∈ erecs) := by
  refine ⟨?_, ?_, ?_⟩
  · have hdf : from_csv_to_pandasdf ncontent =
        ⟨["UniProt ID", "node_label", "properties"],
         nrows.map (fun r => r.map Value.str)⟩ := by
      simp only [from_csv_to_pandasdf, hnc]
    simp only [pandas_nodes_output, hdf,
      df_to_networkx_nodes_canonical nrows nrecs hna hn,
      pandas_node_pairs_canonical]
  · have hdf : from_csv_to_pandasdf econtent =
        ⟨["edge_id", "Source ID", "Target ID", "edge_label", "properties"],
         erows.map (fun r => r.map Value.str)⟩ := by
      simp only [from_csv_to_pandasdf, hec]
    simp only [pandas_edges_output, hdf,
      df_to_networkx_edges_canonical erows erecs hea he,
      pandas_edge_triples_canonical]
  · have hdict : nrecs.foldl (fun m n => dinsert n.1 n.2 m) [] = nrecs := by
      have h1 := dmerge_append_of_disjoint nrecs [] hndn (by simp)
      simpa [dmerge] using h1
    refine ⟨erecs.foldl (fun m e => adjInsert e.1 e.2.1 e.2.2 m) [], ?_, ?_⟩
    · simp only [create_dictionaries, hn, he, hdict]
    · intro x
      have h2 := mem_adjFold erecs [] (fun e _ => rfl) hnde x
      simpa [adjFlatten] using h2

/-- C1 witness: on the canonical single-row node and edge CSVs, all three
builders produce the same single node record and single edge record. -/
theorem C1_builders_agree_witness :
    pandas_nodes_output
      "UniProt ID,node_label,properties\n1,protein,\"\x7b\"\"mass\"\": 10\x7d\"" =
      .ok [(Value.str "1",
        [("mass", Value.int 10), ("node_label", Value.str "protein")])]
    ∧ pandas_edges_output
      "edge_id,Source ID,Target ID,edge_label,properties\ne1,1,2,interacts,\"\x7b\x7d\"" =
      .ok [(Value.str "1", Value.str "2",
        [("edge_id", Value.str "e1"), ("edge_label", Value.str "interacts")])]
    ∧ ∃ amap, create_dictionaries
        [["1", "protein", "\x7b\"mass\": 10\x7d"]]
        [["e1", "1", "2", "interacts", "\x7b\x7d"]] =
        .ok ([("1", [("mass", Value.int 10), ("node_label", Value.str "protein")])],
          amap)
        ∧ (∀ x, x ∈ adjFlatten amap ↔
            x ∈ [("1", "2",
              [("edge_id", Value.str "e1"),
               ("edge_label", Value.str "interacts")])]) :=
  C1_builders_agree
    "UniProt ID,node_label,properties\n1,protein,\"\x7b\"\"mass\"\": 10\x7d\""
    "edge_id,Source ID,Target ID,edge_label,properties\ne1,1,2,interacts,\"\x7b\x7d\""
    [["1", "protein", "\x7b\"mass\": 10\x7d"]]
    [["e1", "1", "2", "interacts", "\x7b\x7d"]]
    [("1", [("mass", Value.int 10), ("node_label", Value.str "protein")])]
    [("1", "2", [("edge_id", Value.str "e1"), ("edge_label", Value.str "interacts")])]
    rfl rfl (by decide) (by decide) rfl rfl (by decide) (by decide)

end Profiling
